import Mathlib

/-!
Verification of the Splendor rules engine (`src/game/` of the repository):
a shallow embedding of `card.py`, `noble.py`, `player.py`, `board.py` and
`game.py`, followed by theorems about the embedded operations.

Conventions of the embedding:
* Python `dict` token maps (always keyed by the six gem colors) become the
  six-field structure `Gems` with `Int` values, `d.get(color, 0)` becoming
  `Gems.get`.
* The three per-level card dictionaries become the three-field structure
  `CardRows`, indexed by the inductive `Level` (the keys 1, 2, 3).
* `random.shuffle` outcomes are parameters of the initial state;
  `random.choice` inside the discard loop is an oracle
  `choice : Nat -> List GemColor -> GemColor` (call number, candidate list).
* All loops are translated structurally; `while` loops carry a fuel argument
  that exactly bounds their iteration count (each iteration pops one deck
  card, respectively lowers the tracked token total by one).
-/

namespace Splendor

/-- The `GemColor` enum of `card.py`. -/
inductive GemColor where
  | white | blue | green | red | black | gold
deriving DecidableEq, Repr

/-- The `.value` string of each `GemColor` member. -/
def GemColor.value : GemColor → String
  | .white => "white"
  | .blue => "blue"
  | .green => "green"
  | .red => "red"
  | .black => "black"
  | .gold => "gold"

/-- The six colors in the fixed insertion order of every token dict in the
source (`WHITE, BLUE, GREEN, RED, BLACK, GOLD`). -/
def gemColors : List GemColor :=
  [GemColor.white, GemColor.blue, GemColor.green, GemColor.red, GemColor.black, GemColor.gold]

/-- A token dict `color -> int` with all six keys present (the shape of every
gem dict in the source: player holdings, the board pool, discounts and
actual-cost maps, where an absent key reads as `0` via `.get(color, 0)`). -/
structure Gems where
  white : Int
  blue : Int
  green : Int
  red : Int
  black : Int
  gold : Int
deriving DecidableEq, Repr

/-- Reading an entry, `d.get(color, 0)`. -/
def Gems.get (g : Gems) : GemColor → Int
  | .white => g.white
  | .blue => g.blue
  | .green => g.green
  | .red => g.red
  | .black => g.black
  | .gold => g.gold

/-- Writing an entry, `d[color] = v`. -/
def Gems.set (g : Gems) : GemColor → Int → Gems
  | .white, v => { g with white := v }
  | .blue, v => { g with blue := v }
  | .green, v => { g with green := v }
  | .red, v => { g with red := v }
  | .black, v => { g with black := v }
  | .gold, v => { g with gold := v }

/-- The all-zero token dict. -/
def zeroGems : Gems := ⟨0, 0, 0, 0, 0, 0⟩

/-- `sum(dict.values())`. -/
def sumGems (g : Gems) : Int :=
  g.white + g.blue + g.green + g.red + g.black + g.gold

/-- Pointwise subtraction: the payment loop `player.gems[color] -= count`
ranged over a payment map (missing keys pay 0). -/
def Gems.sub (g c : Gems) : Gems :=
  ⟨g.white - c.white, g.blue - c.blue, g.green - c.green,
   g.red - c.red, g.black - c.black, g.gold - c.gold⟩

/-- Pointwise addition: the credit loop `board.gems[color] += count`. -/
def Gems.add (g c : Gems) : Gems :=
  ⟨g.white + c.white, g.blue + c.blue, g.green + c.green,
   g.red + c.red, g.black + c.black, g.gold + c.gold⟩

/-- The `Card` dataclass of `card.py`.  `cost` keeps the insertion order of the
source's dict literal. -/
structure Card where
  level : Nat
  points : Nat
  gem_color : GemColor
  cost : List (GemColor × Nat)
  card_id : String
deriving DecidableEq, Repr

/-- The `Noble` dataclass of `noble.py`. -/
structure Noble where
  points : Nat
  requirements : List (GemColor × Nat)
  noble_id : String
deriving DecidableEq, Repr

/-- The deck/display levels, the keys `1, 2, 3` of `board.card_decks` and
`board.displayed_cards`. -/
inductive Level where
  | one | two | three
deriving DecidableEq, Repr

/-- The integer behind a `Level` key. -/
def levelNat : Level → Nat
  | .one => 1
  | .two => 2
  | .three => 3

/-- `natLevel` keys a card's `level` field (1, 2 or 3 for catalog cards) back
into `Level`. -/
def natLevel : Nat → Level
  | 1 => .one
  | 2 => .two
  | _ => .three

/-- A dict `1|2|3 -> list of cards`. -/
structure CardRows where
  r1 : List Card
  r2 : List Card
  r3 : List Card
deriving DecidableEq, Repr

def CardRows.get (r : CardRows) : Level → List Card
  | .one => r.r1
  | .two => r.r2
  | .three => r.r3

def CardRows.set (r : CardRows) : Level → List Card → CardRows
  | .one, l => { r with r1 := l }
  | .two, l => { r with r2 := l }
  | .three, l => { r with r3 := l }

/-- `create_standard_cards()` of `card.py`: the full 50-card catalog. -/
def createStandardCards : List Card :=
  [ -- level 1
    ⟨1, 0, .white, [(.blue, 1), (.green, 1), (.red, 1), (.black, 1)], "L1_W1"⟩,
    ⟨1, 0, .white, [(.blue, 1), (.green, 2), (.red, 1), (.black, 1)], "L1_W2"⟩,
    ⟨1, 0, .white, [(.blue, 2), (.green, 2), (.black, 1)], "L1_W3"⟩,
    ⟨1, 1, .white, [(.blue, 4)], "L1_W4"⟩,
    ⟨1, 0, .blue, [(.white, 1), (.green, 1), (.red, 1), (.black, 1)], "L1_B1"⟩,
    ⟨1, 0, .blue, [(.white, 1), (.green, 1), (.red, 2), (.black, 1)], "L1_B2"⟩,
    ⟨1, 0, .blue, [(.white, 1), (.red, 2), (.black, 2)], "L1_B3"⟩,
    ⟨1, 1, .blue, [(.red, 4)], "L1_B4"⟩,
    ⟨1, 0, .green, [(.white, 1), (.blue, 1), (.red, 1), (.black, 1)], "L1_G1"⟩,
    ⟨1, 0, .green, [(.white, 1), (.blue, 1), (.red, 1), (.black, 2)], "L1_G2"⟩,
    ⟨1, 0, .green, [(.white, 2), (.blue, 1), (.black, 2)], "L1_G3"⟩,
    ⟨1, 1, .green, [(.black, 4)], "L1_G4"⟩,
    ⟨1, 0, .red, [(.white, 1), (.blue, 1), (.green, 1), (.black, 1)], "L1_R1"⟩,
    ⟨1, 0, .red, [(.white, 2), (.blue, 1), (.green, 1), (.black, 1)], "L1_R2"⟩,
    ⟨1, 0, .red, [(.white, 2), (.blue, 2), (.green, 1)], "L1_R3"⟩,
    ⟨1, 1, .red, [(.white, 4)], "L1_R4"⟩,
    ⟨1, 0, .black, [(.white, 1), (.blue, 1), (.green, 1), (.red, 1)], "L1_K1"⟩,
    ⟨1, 0, .black, [(.white, 1), (.blue, 2), (.green, 1), (.red, 1)], "L1_K2"⟩,
    ⟨1, 0, .black, [(.white, 1), (.blue, 2), (.green, 2)], "L1_K3"⟩,
    ⟨1, 1, .black, [(.green, 4)], "L1_K4"⟩,
    -- level 2
    ⟨2, 1, .white, [(.blue, 3), (.green, 2), (.red, 2)], "L2_W1"⟩,
    ⟨2, 1, .white, [(.blue, 3), (.green, 3), (.black, 2)], "L2_W2"⟩,
    ⟨2, 2, .white, [(.blue, 5)], "L2_W3"⟩,
    ⟨2, 1, .blue, [(.white, 2), (.green, 2), (.red, 3)], "L2_B1"⟩,
    ⟨2, 1, .blue, [(.white, 2), (.red, 3), (.black, 3)], "L2_B2"⟩,
    ⟨2, 2, .blue, [(.white, 5)], "L2_B3"⟩,
    ⟨2, 1, .green, [(.white, 3), (.blue, 2), (.black, 2)], "L2_G1"⟩,
    ⟨2, 1, .green, [(.white, 3), (.red, 2), (.black, 3)], "L2_G2"⟩,
    ⟨2, 2, .green, [(.blue, 5)], "L2_G3"⟩,
    ⟨2, 1, .red, [(.white, 2), (.green, 3), (.black, 2)], "L2_R1"⟩,
    ⟨2, 1, .red, [(.blue, 2), (.green, 3), (.black, 3)], "L2_R2"⟩,
    ⟨2, 2, .red, [(.black, 5)], "L2_R3"⟩,
    ⟨2, 1, .black, [(.white, 2), (.blue, 2), (.red, 3)], "L2_K1"⟩,
    ⟨2, 1, .black, [(.white, 3), (.green, 2), (.red, 3)], "L2_K2"⟩,
    ⟨2, 2, .black, [(.red, 5)], "L2_K3"⟩,
    -- level 3
    ⟨3, 3, .white, [(.blue, 3), (.green, 3), (.red, 3), (.black, 5)], "L3_W1"⟩,
    ⟨3, 4, .white, [(.red, 7)], "L3_W2"⟩,
    ⟨3, 3, .blue, [(.white, 3), (.green, 3), (.red, 5), (.black, 3)], "L3_B1"⟩,
    ⟨3, 4, .blue, [(.black, 7)], "L3_B2"⟩,
    ⟨3, 3, .green, [(.white, 5), (.blue, 3), (.red, 3), (.black, 3)], "L3_G1"⟩,
    ⟨3, 4, .green, [(.white, 7)], "L3_G2"⟩,
    ⟨3, 3, .red, [(.white, 3), (.blue, 5), (.green, 3), (.black, 3)], "L3_R1"⟩,
    ⟨3, 4, .red, [(.green, 7)], "L3_R2"⟩,
    ⟨3, 3, .black, [(.white, 3), (.blue, 3), (.green, 5), (.red, 3)], "L3_K1"⟩,
    ⟨3, 4, .black, [(.blue, 7)], "L3_K2"⟩ ]

/-- `create_standard_nobles()` of `noble.py`. -/
def createStandardNobles : List Noble :=
  [ ⟨3, [(.white, 4), (.red, 4)], "N1"⟩,
    ⟨3, [(.white, 3), (.blue, 3), (.red, 3)], "N2"⟩,
    ⟨3, [(.blue, 4), (.green, 4)], "N3"⟩,
    ⟨3, [(.black, 4), (.red, 4)], "N4"⟩,
    ⟨3, [(.white, 3), (.blue, 3), (.black, 3)], "N5"⟩,
    ⟨3, [(.green, 4), (.black, 4)], "N6"⟩,
    ⟨3, [(.white, 3), (.green, 3), (.black, 3)], "N7"⟩,
    ⟨3, [(.blue, 3), (.green, 3), (.red, 3)], "N8"⟩,
    ⟨3, [(.white, 4), (.blue, 4)], "N9"⟩,
    ⟨3, [(.green, 3), (.red, 3), (.black, 3)], "N10"⟩ ]

/-- The `Player` dataclass of `player.py`. -/
structure Player where
  player_id : String
  name : String
  gems : Gems
  cards : List Card
  reserved_cards : List Card
  nobles : List Noble
deriving DecidableEq, Repr

/-- `Player.get_total_gems`. -/
def Player.get_total_gems (p : Player) : Int := sumGems p.gems

/-- `Player.get_card_discounts`: start every color at 0 and add 1 per owned
card of that color (the source seeds the five non-Gold keys and lets `.get`
default the rest, which is the same total map). -/
def Player.get_card_discounts (p : Player) : Gems :=
  p.cards.foldl (fun d cd => d.set cd.gem_color (d.get cd.gem_color + 1)) zeroGems

/-- One iteration of `Player.can_afford_card`'s loop: add the shortfall of one
cost entry (`p.get_card_discounts` is loop-invariant, so reading it here is the
same as reading it once before the loop). -/
def affordStep (p : Player) (acc : Int) (pr : GemColor × Nat) : Int :=
  let available := p.gems.get pr.1 + p.get_card_discounts.get pr.1
  if available < (pr.2 : Int) then acc + ((pr.2 : Int) - available) else acc

/-- `Player.can_afford_card`: accumulate the per-color shortfall after
discounts and own tokens, and compare with held Gold. -/
def Player.can_afford_card (p : Player) (cd : Card) : Bool :=
  cd.cost.foldl (affordStep p) 0 ≤ p.gems.get .gold

/-- One iteration of `Player.get_actual_cost`'s loop: floor the cost entry at
the discount, pay from the color's own tokens, and top the rest up from Gold
(the Gold available is read afresh for every color, exactly as in the
source). -/
def actualCostStep (p : Player) (acc : Gems) (pr : GemColor × Nat) : Gems :=
  let remaining := max 0 ((pr.2 : Int) - p.get_card_discounts.get pr.1)
  if 0 < remaining then
    let own := min remaining (p.gems.get pr.1)
    let acc1 := acc.set pr.1 own
    let remaining2 := remaining - own
    if 0 < remaining2 ∧ 0 < p.gems.get .gold then
      let gold_needed := min remaining2 (p.gems.get .gold)
      if 0 < gold_needed then acc1.set .gold (acc1.get .gold + gold_needed) else acc1
    else acc1
  else acc

/-- `Player.get_actual_cost`. -/
def Player.get_actual_cost (p : Player) (cd : Card) : Gems :=
  cd.cost.foldl (actualCostStep p) zeroGems

/-- `Player.get_score`. -/
def Player.get_score (p : Player) : Nat :=
  (p.cards.map Card.points).sum + (p.nobles.map Noble.points).sum

/-- `Player.can_be_visited_by_noble`. -/
def Player.can_be_visited_by_noble (p : Player) (nb : Noble) : Bool :=
  let d := p.get_card_discounts
  nb.requirements.all (fun pr => (pr.2 : Int) ≤ d.get pr.1)

/-- The `Board` of `board.py`. -/
structure Board where
  gems : Gems
  card_decks : CardRows
  displayed_cards : CardRows
  nobles : List Noble
deriving DecidableEq, Repr

/-- `Board._initialize_gems`: `{2: 4, 3: 5, 4: 7}.get(num_players, 4)` per
non-Gold color, Gold fixed at 5. -/
def baseGems (n : Nat) : Int :=
  if n = 2 then 4 else if n = 3 then 5 else if n = 4 then 7 else 4

def initGems (n : Nat) : Gems :=
  ⟨baseGems n, baseGems n, baseGems n, baseGems n, baseGems n, 5⟩

/-- `list.pop()`: remove and return the LAST element (the deck top). -/
def popLast : List Card → Option (Card × List Card)
  | [] => none
  | [c] => some (c, [])
  | c :: rest =>
    match popLast rest with
    | none => none
    | some (x, r) => some (x, c :: r)

/-- One level of `Board.replenish_displayed_cards`: `while len(disp) < 4 and
deck: disp.append(deck.pop())`.  The fuel `deck.length` bounds the loop since
every iteration pops one deck card. -/
def replenishAux : Nat → List Card → List Card → List Card × List Card
  | 0, disp, deck => (disp, deck)
  | fuel + 1, disp, deck =>
    if disp.length < 4 then
      match popLast deck with
      | none => (disp, deck)
      | some (c, rest) => replenishAux fuel (disp ++ [c]) rest
    else (disp, deck)

def replenishLevel (disp deck : List Card) : List Card × List Card :=
  replenishAux deck.length disp deck

/-- `Board.replenish_displayed_cards`: top all three levels back up to 4. -/
def Board.replenish_displayed_cards (b : Board) : Board :=
  let p1 := replenishLevel (b.displayed_cards.get .one) (b.card_decks.get .one)
  let p2 := replenishLevel (b.displayed_cards.get .two) (b.card_decks.get .two)
  let p3 := replenishLevel (b.displayed_cards.get .three) (b.card_decks.get .three)
  { b with displayed_cards := ⟨p1.1, p2.1, p3.1⟩, card_decks := ⟨p1.2, p2.2, p3.2⟩ }

/-- The scan `for i, card in enumerate(lst): if card.card_id == card_id:
lst.pop(i)` — remove and return the first card with the given id. -/
def removeFirstById : List Card → String → Option (Card × List Card)
  | [], _ => none
  | c :: rest, cid =>
    if c.card_id = cid then some (c, rest)
    else
      match removeFirstById rest cid with
      | none => none
      | some (r, rest') => some (r, c :: rest')

/-- `Board.remove_displayed_card`: locate by id in the level's display, pop
it, replenish, and return it; `None` and no mutation when absent. -/
def Board.remove_displayed_card (b : Board) (level : Level) (cid : String) :
    Option Card × Board :=
  match removeFirstById (b.displayed_cards.get level) cid with
  | none => (none, b)
  | some (c, rest) =>
    (some c, (({ b with displayed_cards := b.displayed_cards.set level rest })).replenish_displayed_cards)

/-- `Board.take_gems`: check every requested color first, then deduct all
(no partial deduction). -/
def Board.take_gems (b : Board) (req : List (GemColor × Int)) : Bool × Board :=
  if req.all (fun pr => pr.2 ≤ b.gems.get pr.1) then
    (true, { b with gems := req.foldl (fun g pr => g.set pr.1 (g.get pr.1 - pr.2)) b.gems })
  else (false, b)

/-- The scan of `Board.remove_noble`. -/
def removeNobleById : List Noble → String → Option (Noble × List Noble)
  | [], _ => none
  | nb :: rest, nid =>
    if nb.noble_id = nid then some (nb, rest)
    else
      match removeNobleById rest nid with
      | none => none
      | some (r, rest') => some (r, nb :: rest')

/-- `Board.remove_noble` (the returned noble is discarded by the caller). -/
def Board.remove_noble (b : Board) (nid : String) : Board :=
  match removeNobleById b.nobles nid with
  | none => b
  | some (_, rest) => { b with nobles := rest }

/-- The `Action` class of `game.py` as the closed variant its five
`ActionType`s and generator-produced parameter sets form.  A reserve action
carries `card_id = some id` when generated from the display and
`card_id = none, from_deck = true` when generated from a deck top. -/
inductive Action where
  | take_different_gems (colors : List GemColor)
  | take_same_gems (color : GemColor)
  | reserve_card (level : Level) (card_id : Option String) (from_deck : Bool)
  | buy_card (level : Level) (card_id : String)
  | buy_reserved_card (card_id : String)
deriving DecidableEq, Repr

/-- A JSON scalar as it occurs in `Action.to_dict`'s processed params. -/
inductive PValue where
  | s (v : String)
  | n (v : Nat)
  | b (v : Bool)
  | ls (v : List String)
deriving DecidableEq, Repr

/-- `Action.__str__`. -/
def Action.describe : Action → String
  | .take_different_gems colors =>
    "拿取不同颜色的宝石: " ++ String.intercalate ", " (colors.map GemColor.value)
  | .take_same_gems c => "拿取相同颜色的宝石: " ++ c.value
  | .reserve_card level cid _ =>
    "预留" ++ toString (levelNat level) ++ "级卡牌: " ++ cid.getD "Unknown"
  | .buy_card _ cid => "购买卡牌: " ++ cid
  | .buy_reserved_card cid => "购买预留卡牌: " ++ cid

/-- The `"action_type"` tag (`ActionType.value`). -/
def Action.typeValue : Action → String
  | .take_different_gems _ => "take_different_gems"
  | .take_same_gems _ => "take_same_gems"
  | .reserve_card _ _ _ => "reserve_card"
  | .buy_card _ _ => "buy_card"
  | .buy_reserved_card _ => "buy_reserved_card"

/-- The processed `params` of `Action.to_dict` (enums replaced by their
`.value` strings, key insertion order as in the generators). -/
def Action.paramsDict : Action → List (String × PValue)
  | .take_different_gems colors => [("colors", .ls (colors.map GemColor.value))]
  | .take_same_gems c => [("color", .s c.value)]
  | .reserve_card level cid fd =>
    [("level", .n (levelNat level))]
      ++ (match cid with | some i => [("card_id", PValue.s i)] | none => [])
      ++ (if fd then [("from_deck", PValue.b true)] else [])
  | .buy_card level cid => [("level", .n (levelNat level)), ("card_id", .s cid)]
  | .buy_reserved_card cid => [("card_id", .s cid)]

/-- The dict returned by `Action.to_dict`. -/
structure ActionDict where
  action_type : String
  params : List (String × PValue)
  description : String
deriving DecidableEq, Repr

def Action.to_dict (a : Action) : ActionDict :=
  ⟨a.typeValue, a.paramsDict, a.describe⟩

/-- One entry of `Game.history`. -/
structure HistoryEntry where
  round : Nat
  player : String
  action : String
  action_data : ActionDict
deriving DecidableEq, Repr

/-- The `Game` class state.  `last_player_index` is the attribute that only
exists once `_check_game_end` has triggered the last round; it is `none`
before that and is only ever read under `last_round`. -/
structure Game where
  players : List Player
  num_players : Nat
  board : Board
  current_player_index : Nat
  round_number : Nat
  game_over : Bool
  winner : Option (List Player)
  last_round : Bool
  last_player_index : Option Nat
  history : List HistoryEntry
deriving DecidableEq, Repr

/-- Artifact of totalizing `self.players[self.current_player_index]`: the
index is always in range in reachable states (proved below), so the default
is never consulted there. -/
def dummyPlayer : Player := ⟨"", "", zeroGems, [], [], []⟩

/-- `Game.get_current_player`. -/
def Game.get_current_player (s : Game) : Player :=
  s.players.getD s.current_player_index dummyPlayer

/-- `Game.next_player`. -/
def Game.next_player (s : Game) : Game :=
  let i := (s.current_player_index + 1) % s.num_players
  if i = 0 then { s with current_player_index := i, round_number := s.round_number + 1 }
  else { s with current_player_index := i }

/-- `itertools.combinations(l, n)` on lists, in itertools order. -/
def combos : Nat → List GemColor → List (List GemColor)
  | 0, _ => [[]]
  | _ + 1, [] => []
  | n + 1, x :: xs => (combos n xs).map (x :: ·) ++ combos (n + 1) xs

/-- The non-Gold colors with a positive pool count, in the source's
iteration order. -/
def availableColors (b : Board) : List GemColor :=
  [GemColor.white, GemColor.blue, GemColor.green, GemColor.red, GemColor.black].filter
    (fun c => 0 < b.gems.get c)

/-- `Game._get_different_gems_actions`. -/
def Game.getDifferentGemsActions (s : Game) : List Action :=
  let available := availableColors s.board
  if available.length ≤ 3 then [Action.take_different_gems available]
  else (combos 3 available).map Action.take_different_gems

/-- `Game._get_same_gems_actions`. -/
def Game.getSameGemsActions (s : Game) : List Action :=
  ([GemColor.white, GemColor.blue, GemColor.green, GemColor.red, GemColor.black].filter
    (fun c => 4 ≤ s.board.gems.get c)).map Action.take_same_gems

/-- `Game._get_reserve_card_actions`. -/
def Game.getReserveCardActions (s : Game) (p : Player) : List Action :=
  if 3 ≤ p.reserved_cards.length then []
  else
    ([Level.one, Level.two, Level.three].flatMap (fun l =>
      (s.board.displayed_cards.get l).map (fun c => Action.reserve_card l (some c.card_id) false)))
    ++ ([Level.one, Level.two, Level.three].filterMap (fun l =>
      if s.board.card_decks.get l ≠ [] then some (Action.reserve_card l none true) else none))

/-- `Game._get_buy_card_actions`. -/
def Game.getBuyCardActions (s : Game) (p : Player) : List Action :=
  [Level.one, Level.two, Level.three].flatMap (fun l =>
    ((s.board.displayed_cards.get l).filter (fun c => p.can_afford_card c)).map
      (fun c => Action.buy_card l c.card_id))

/-- `Game._get_buy_reserved_card_actions`. -/
def Game.getBuyReservedCardActions (p : Player) : List Action :=
  (p.reserved_cards.filter (fun c => p.can_afford_card c)).map
    (fun c => Action.buy_reserved_card c.card_id)

/-- `Game.get_valid_actions`. -/
def Game.get_valid_actions (s : Game) : List Action :=
  let p := s.get_current_player
  s.getDifferentGemsActions ++ s.getSameGemsActions ++ s.getReserveCardActions p
    ++ s.getBuyCardActions p ++ Game.getBuyReservedCardActions p

/-- First occurrences of a list in order: the key set of the dict
`{color: 1 for color in colors}`. -/
def dedupColors : List GemColor → List GemColor
  | [] => []
  | c :: rest => c :: (dedupColors rest).filter (· ≠ c)

/-- The body of `Game._check_and_discard_gems`'s `while total_gems > 10`
loop, one unfolding per unit of fuel.  `check_and_discard` supplies the fuel
`(total - 10).toNat`, which is exact: every iteration moves one token back to
the board and lowers the tracked total by one, and the loop stops as soon as
the tracked total reaches 10 (or no color is positive). -/
def discardAux (choice : Nat → List GemColor → GemColor) :
    Nat → Nat → Gems → Gems → Gems × Gems
  | 0, _, pg, bg => (pg, bg)
  | fuel + 1, k, pg, bg =>
    let available := gemColors.filter (fun c => 0 < pg.get c)
    if available = [] then (pg, bg)
    else
      let c := choice k available
      discardAux choice fuel (k + 1) (pg.set c (pg.get c - 1)) (bg.set c (bg.get c + 1))

/-- `Game._check_and_discard_gems`, acting on the pair (player tokens, board
pool). -/
def checkAndDiscard (choice : Nat → List GemColor → GemColor) (pg bg : Gems) :
    Gems × Gems :=
  discardAux choice (sumGems pg - 10).toNat 0 pg bg

/-- `Game._check_nobles_visit`: grant the first qualifying noble, if any. -/
def Game.checkNoblesVisit (s : Game) : Game :=
  let p := s.get_current_player
  match s.board.nobles.filter (fun nb => p.can_be_visited_by_noble nb) with
  | [] => s
  | nb :: _ =>
    { s with
      board := s.board.remove_noble nb.noble_id,
      players := s.players.set s.current_player_index
        { p with nobles := p.nobles ++ [nb] } }

/-- The accumulator loop of `Game._determine_winner` (`max_score` starts at
-1, `min_cards` at infinity — modelled as `none`). -/
def minCandidate : Option Nat → Nat → Option Nat
  | none, n => some n
  | some m, n => some (min m n)

def winnersLoop : List Player → Int → Option Nat → List Player →
    Int × Option Nat × List Player
  | [], ms, mc, pw => (ms, mc, pw)
  | p :: rest, ms, mc, pw =>
    if ms < (p.get_score : Int) then
      winnersLoop rest p.get_score (some p.cards.length) [p]
    else if (p.get_score : Int) = ms then
      winnersLoop rest ms (minCandidate mc p.cards.length) (pw ++ [p])
    else winnersLoop rest ms mc pw

/-- `Game._determine_winner` as a function of the player list. -/
def determineWinner (players : List Player) : List Player :=
  let r := winnersLoop players (-1) none []
  r.2.2.filter (fun p => ((p.get_score : Int) = r.1 ∧ some p.cards.length = r.2.1 : Bool))

/-- Whether some player has reached the 15-point threshold (the trigger
scan of `_check_game_end`). -/
def anyFifteen (s : Game) : Bool :=
  s.players.any (fun p => 15 ≤ p.get_score)

/-- `Game._check_game_end`: a purchase triggers the last round once any score
reaches 15, and the game ends when the current player sits immediately before
the recorded trigger seat. -/
def Game.checkGameEnd (s : Game) : Game :=
  let trig := !s.last_round && anyFifteen s
  let lr := s.last_round || anyFifteen s
  let lpi := if trig then some s.current_player_index else s.last_player_index
  if lr && (some ((s.current_player_index + 1) % s.num_players) == lpi) then
    { s with last_round := lr, last_player_index := lpi, game_over := true,
             winner := some (determineWinner s.players) }
  else { s with last_round := lr, last_player_index := lpi }

/-- `Game._execute_take_different_gems`. -/
def Game.execTakeDifferent (choice : Nat → List GemColor → GemColor)
    (colors : List GemColor) (s : Game) : Bool × Game :=
  if colors = [] ∨ 3 < colors.length then (false, s)
  else if colors.any (fun c => s.board.gems.get c ≤ 0) then (false, s)
  else
    let req := (dedupColors colors).map (fun c => (c, (1 : Int)))
    match s.board.take_gems req with
    | (false, _) => (false, s)
    | (true, b1) =>
      let p := s.get_current_player
      let p1 := { p with gems := req.foldl (fun g (pr : GemColor × Int) => g.set pr.1 (g.get pr.1 + pr.2)) p.gems }
      let d := checkAndDiscard choice p1.gems b1.gems
      (true, { s with
        board := { b1 with gems := d.2 },
        players := s.players.set s.current_player_index { p1 with gems := d.1 } })

/-- `Game._execute_take_same_gems`. -/
def Game.execTakeSame (choice : Nat → List GemColor → GemColor)
    (color : GemColor) (s : Game) : Bool × Game :=
  if s.board.gems.get color < 4 then (false, s)
  else
    match s.board.take_gems [(color, 2)] with
    | (false, _) => (false, s)
    | (true, b1) =>
      let p := s.get_current_player
      let p1 := { p with gems := p.gems.set color (p.gems.get color + 2) }
      let d := checkAndDiscard choice p1.gems b1.gems
      (true, { s with
        board := { b1 with gems := d.2 },
        players := s.players.set s.current_player_index { p1 with gems := d.1 } })

/-- The tail of `Game._execute_reserve_card` once the card has been removed
from its source: append it to the reserved list, replenish the display, and
grant one Gold (with the discard check) when the pool still has Gold. -/
def reserveTail (choice : Nat → List GemColor → GemColor) (s : Game)
    (card : Card) (b1 : Board) : Bool × Game :=
  let p := s.get_current_player
  let p1 := { p with reserved_cards := p.reserved_cards ++ [card] }
  let b2 := b1.replenish_displayed_cards
  if 0 < b2.gems.get .gold then
    let b3 := { b2 with gems := b2.gems.set .gold (b2.gems.get .gold - 1) }
    let p2 := { p1 with gems := p1.gems.set .gold (p1.gems.get .gold + 1) }
    let d := checkAndDiscard choice p2.gems b3.gems
    (true, { s with
      board := { b3 with gems := d.2 },
      players := s.players.set s.current_player_index { p2 with gems := d.1 } })
  else
    (true, { s with board := b2,
                    players := s.players.set s.current_player_index p1 })

/-- `Game._execute_reserve_card`. -/
def Game.execReserveCard (choice : Nat → List GemColor → GemColor)
    (level : Level) (cid : Option String) (from_deck : Bool) (s : Game) : Bool × Game :=
  let p := s.get_current_player
  if 3 ≤ p.reserved_cards.length then (false, s)
  else
    let found : Option (Card × Board) :=
      if from_deck then
        match popLast (s.board.card_decks.get level) with
        | none => none
        | some (c, rest) =>
          some (c, { s.board with card_decks := s.board.card_decks.set level rest })
      else
        match cid with
        | none => none
        | some i =>
          match removeFirstById (s.board.displayed_cards.get level) i with
          | none => none
          | some (c, rest) =>
            some (c, { s.board with displayed_cards := s.board.displayed_cards.set level rest })
    match found with
    | none => (false, s)
    | some (card, b1) => reserveTail choice s card b1

/-- `Game._execute_buy_card`. -/
def Game.execBuyCard (level : Level) (cid : String) (s : Game) : Bool × Game :=
  match (s.board.displayed_cards.get level).find? (fun c => c.card_id = cid) with
  | none => (false, s)
  | some card =>
    let p := s.get_current_player
    if !p.can_afford_card card then (false, s)
    else
      let cost := p.get_actual_cost card
      let p1 := { p with gems := p.gems.sub cost }
      let b1 := { s.board with gems := s.board.gems.add cost }
      let b2 := (b1.remove_displayed_card level cid).2
      let p2 := { p1 with cards := p1.cards ++ [card] }
      let s1 := { s with board := b2,
                         players := s.players.set s.current_player_index p2 }
      (true, s1.checkNoblesVisit.checkGameEnd)

/-- `Game._execute_buy_reserved_card`. -/
def Game.execBuyReserved (cid : String) (s : Game) : Bool × Game :=
  let p := s.get_current_player
  match removeFirstById p.reserved_cards cid with
  | none => (false, s)
  | some (card, rest) =>
    if !p.can_afford_card card then (false, s)
    else
      let cost := p.get_actual_cost card
      let p1 := { p with gems := p.gems.sub cost, reserved_cards := rest,
                         cards := p.cards ++ [card] }
      let b1 := { s.board with gems := s.board.gems.add cost }
      let s1 := { s with board := b1,
                         players := s.players.set s.current_player_index p1 }
      (true, s1.checkNoblesVisit.checkGameEnd)

/-- `Game.execute_action`: append the history record, then dispatch. -/
def Game.execute_action (choice : Nat → List GemColor → GemColor)
    (a : Action) (s : Game) : Bool × Game :=
  let p := s.get_current_player
  let s0 := { s with history :=
    s.history ++ [(⟨s.round_number, p.player_id, a.describe, a.to_dict⟩ : HistoryEntry)] }
  match a with
  | .take_different_gems colors => s0.execTakeDifferent choice colors
  | .take_same_gems c => s0.execTakeSame choice c
  | .reserve_card level cid fd => s0.execReserveCard choice level cid fd
  | .buy_card level cid => s0.execBuyCard level cid
  | .buy_reserved_card cid => s0.execBuyReserved cid

/-- The four `deck.pop()` calls of `Board.__init__`'s dealing loop (a pop is
skipped when the deck is exhausted, as in the source's `if` guard). -/
def dealAux : Nat → List Card → List Card → List Card × List Card
  | 0, disp, deck => (disp, deck)
  | k + 1, disp, deck =>
    match popLast deck with
    | none => (disp, deck)
    | some (c, rest) => dealAux k (disp ++ [c]) rest

/-- `Board.__init__`, parametrized by the three shuffled per-level decks and
the shuffled noble list (the outcomes of `random.shuffle`). -/
def initBoard (n : Nat) (d1 d2 d3 : List Card) (snobles : List Noble) : Board :=
  let p1 := dealAux 4 [] d1
  let p2 := dealAux 4 [] d2
  let p3 := dealAux 4 [] d3
  ⟨initGems n, ⟨p1.2, p2.2, p3.2⟩, ⟨p1.1, p2.1, p3.1⟩, snobles.take (n + 1)⟩

/-- A fresh `Player(player_id, name)` with the dataclass defaults. -/
def mkPlayer (pid nm : String) : Player := ⟨pid, nm, zeroGems, [], [], []⟩

/-- `Game.__init__`, parametrized by the shuffle outcomes. -/
def initGame (pnames : List (String × String)) (d1 d2 d3 : List Card)
    (snobles : List Noble) : Game :=
  let players := pnames.map (fun pr => mkPlayer pr.1 pr.2)
  ⟨players, players.length, initBoard players.length d1 d2 d3 snobles,
   0, 1, false, none, false, none, []⟩

/-- `random.choice` returns an element of its (nonempty) argument. -/
def ValidChoice (choice : Nat → List GemColor → GemColor) : Prop :=
  ∀ k l, l ≠ [] → choice k l ∈ l

/-- The states reachable from a freshly initialized game by `execute_action`
and `next_player` steps, over all shuffle outcomes and all discard oracles. -/
inductive Reachable : Game → Prop where
  | init : ∀ pnames d1 d2 d3 snobles,
      pnames ≠ [] →
      d1.Perm (createStandardCards.filter (fun c => c.level = 1)) →
      d2.Perm (createStandardCards.filter (fun c => c.level = 2)) →
      d3.Perm (createStandardCards.filter (fun c => c.level = 3)) →
      snobles.Perm createStandardNobles →
      Reachable (initGame pnames d1 d2 d3 snobles)
  | step : ∀ s a choice, ValidChoice choice → Reachable s →
      Reachable (s.execute_action choice a).2
  | advance : ∀ s, Reachable s → Reachable s.next_player

/-! ### Basic lemmas about token maps -/

theorem Gems.get_set (g : Gems) (c d : GemColor) (v : Int) :
    (g.set c v).get d = if d = c then v else g.get d := by
  cases c <;> cases d <;> simp [Gems.get, Gems.set]

theorem sumGems_set (g : Gems) (c : GemColor) (v : Int) :
    sumGems (g.set c v) = sumGems g - g.get c + v := by
  cases c <;> simp [sumGems, Gems.get, Gems.set] <;> ring

theorem Gems.get_sub (g c : Gems) (x : GemColor) :
    (g.sub c).get x = g.get x - c.get x := by
  cases x <;> rfl

theorem Gems.get_add (g c : Gems) (x : GemColor) :
    (g.add c).get x = g.get x + c.get x := by
  cases x <;> rfl

theorem sumGems_sub (g c : Gems) : sumGems (g.sub c) = sumGems g - sumGems c := by
  simp only [sumGems, Gems.sub]; ring

theorem sumGems_eq (g : Gems) : sumGems g = (gemColors.map g.get).sum := by
  simp only [gemColors, sumGems, List.map_cons, List.map_nil, List.sum_cons, List.sum_nil, Gems.get]
  ring

theorem zeroGems_get (c : GemColor) : zeroGems.get c = 0 := by cases c <;> rfl

theorem sumGems_nonneg (g : Gems) (h : ∀ c, 0 ≤ g.get c) : 0 ≤ sumGems g := by
  have h1 := h .white; have h2 := h .blue; have h3 := h .green
  have h4 := h .red; have h5 := h .black; have h6 := h .gold
  simp only [Gems.get] at *
  simp only [sumGems]; linarith

/-- If the six counts sum to something positive, some color is positive, so
the `available_colors` list of the discard loop is nonempty. -/
theorem avail_ne_nil (g : Gems) (h : 0 < sumGems g) :
    gemColors.filter (fun c => 0 < g.get c) ≠ [] := by
  intro hnil
  rw [List.filter_eq_nil_iff] at hnil
  have h1 := hnil GemColor.white (by simp [gemColors])
  have h2 := hnil GemColor.blue (by simp [gemColors])
  have h3 := hnil GemColor.green (by simp [gemColors])
  have h4 := hnil GemColor.red (by simp [gemColors])
  have h5 := hnil GemColor.black (by simp [gemColors])
  have h6 := hnil GemColor.gold (by simp [gemColors])
  simp only [decide_eq_true_eq, not_lt, Gems.get] at h1 h2 h3 h4 h5 h6
  simp only [sumGems] at h
  linarith

/-! ### Debit/credit folds used by `take_gems` and the player credit loop -/

/-- The total amount a request list asks of one color. -/
def reqAmount (req : List (GemColor × Int)) (c : GemColor) : Int :=
  ((req.filter (fun pr => pr.1 = c)).map Prod.snd).sum

theorem reqAmount_nil (c : GemColor) : reqAmount [] c = 0 := rfl

theorem reqAmount_cons (pr : GemColor × Int) (req : List (GemColor × Int)) (c : GemColor) :
    reqAmount (pr :: req) c = (if pr.1 = c then pr.2 else 0) + reqAmount req c := by
  simp only [reqAmount, List.filter_cons]
  split <;> simp_all

theorem debit_get (req : List (GemColor × Int)) (g : Gems) (c : GemColor) :
    (req.foldl (fun g pr => g.set pr.1 (g.get pr.1 - pr.2)) g).get c
      = g.get c - reqAmount req c := by
  induction req generalizing g with
  | nil => simp [reqAmount]
  | cons pr rest ih =>
    simp only [List.foldl_cons, ih, reqAmount_cons, Gems.get_set]
    rcases pr with ⟨pc, pv⟩
    by_cases h : c = pc <;> simp [h] <;> [ring; skip]
    intro h'; exact absurd h'.symm h

theorem credit_get (req : List (GemColor × Int)) (g : Gems) (c : GemColor) :
    (req.foldl (fun g (pr : GemColor × Int) => g.set pr.1 (g.get pr.1 + pr.2)) g).get c
      = g.get c + reqAmount req c := by
  induction req generalizing g with
  | nil => simp [reqAmount]
  | cons pr rest ih =>
    simp only [List.foldl_cons, ih, reqAmount_cons, Gems.get_set]
    rcases pr with ⟨pc, pv⟩
    by_cases h : c = pc <;> simp [h] <;> [ring; skip]
    intro h'; exact absurd h'.symm h

theorem credit_sum (req : List (GemColor × Int)) (g : Gems) :
    sumGems (req.foldl (fun g (pr : GemColor × Int) => g.set pr.1 (g.get pr.1 + pr.2)) g)
      = sumGems g + (req.map Prod.snd).sum := by
  induction req generalizing g with
  | nil => simp
  | cons pr rest ih =>
    simp only [List.foldl_cons, ih, sumGems_set, List.map_cons, List.sum_cons]
    ring

/-! ### The discard loop -/

theorem discardAux_get_pair (choice : Nat → List GemColor → GemColor) :
    ∀ (fuel k : Nat) (pg bg : Gems) (c : GemColor),
    (discardAux choice fuel k pg bg).1.get c + (discardAux choice fuel k pg bg).2.get c
      = pg.get c + bg.get c := by
  intro fuel
  induction fuel with
  | zero => intro k pg bg c; simp [discardAux]
  | succ f ih =>
    intro k pg bg c
    simp only [discardAux]
    split
    · rfl
    · rw [ih, Gems.get_set, Gems.get_set]
      by_cases hcc : c = choice k (gemColors.filter (fun c => 0 < pg.get c))
      · rw [if_pos hcc, if_pos hcc, hcc]; ring
      · rw [if_neg hcc, if_neg hcc]

theorem discardAux_sum (choice : Nat → List GemColor → GemColor) :
    ∀ (fuel k : Nat) (pg bg : Gems), (sumGems pg - 10).toNat = fuel →
    sumGems (discardAux choice fuel k pg bg).1 = if 0 < fuel then 10 else sumGems pg := by
  intro fuel
  induction fuel with
  | zero => intro k pg bg _; simp [discardAux]
  | succ f ih =>
    intro k pg bg hfuel
    have hsum : sumGems pg = 11 + (f : Int) := by omega
    have hpos : 0 < sumGems pg := by omega
    simp only [discardAux]
    rw [if_neg (by simp [avail_ne_nil pg hpos])]
    set c := choice k (gemColors.filter (fun c => 0 < pg.get c)) with hc
    have hstep : sumGems (pg.set c (pg.get c - 1)) = sumGems pg - 1 := by
      rw [sumGems_set]; ring
    rw [ih (k + 1) _ _ (by omega)]
    by_cases hf : 0 < f
    · simp [hf]
    · have hf0 : f = 0 := by omega
      simp [hf0, hstep, hsum]

theorem checkAndDiscard_get_pair (choice : Nat → List GemColor → GemColor)
    (pg bg : Gems) (c : GemColor) :
    (checkAndDiscard choice pg bg).1.get c + (checkAndDiscard choice pg bg).2.get c
      = pg.get c + bg.get c :=
  discardAux_get_pair choice _ 0 pg bg c

/-- After the discard loop the player's total is at most 10 — unconditionally,
because the loop runs exactly `(total - 10)` times (it cannot break early while
the tracked total exceeds 10: a positive total forces a positive color). -/
theorem checkAndDiscard_le_ten (choice : Nat → List GemColor → GemColor) (pg bg : Gems) :
    sumGems (checkAndDiscard choice pg bg).1 ≤ 10 := by
  unfold checkAndDiscard
  rw [discardAux_sum choice _ 0 pg bg rfl]
  split
  · omega
  · next h => omega

theorem discardAux_pg_nonneg (choice : Nat → List GemColor → GemColor)
    (hv : ValidChoice choice) :
    ∀ (fuel k : Nat) (pg bg : Gems), (∀ c, 0 ≤ pg.get c) →
    ∀ c, 0 ≤ (discardAux choice fuel k pg bg).1.get c := by
  intro fuel
  induction fuel with
  | zero => intro k pg bg h c; simpa [discardAux] using h c
  | succ f ih =>
    intro k pg bg h c
    simp only [discardAux]
    split
    · exact h c
    · next hne =>
      apply ih
      intro d
      rw [Gems.get_set]
      split
      · next hd =>
        subst hd
        have hmem := hv k _ hne
        have := List.of_mem_filter hmem
        simp only [decide_eq_true_eq] at this
        omega
      · exact h d

theorem discardAux_bg_nonneg (choice : Nat → List GemColor → GemColor) :
    ∀ (fuel k : Nat) (pg bg : Gems), (∀ c, 0 ≤ bg.get c) →
    ∀ c, 0 ≤ (discardAux choice fuel k pg bg).2.get c := by
  intro fuel
  induction fuel with
  | zero => intro k pg bg h c; simpa [discardAux] using h c
  | succ f ih =>
    intro k pg bg h c
    simp only [discardAux]
    split
    · exact h c
    · apply ih
      intro d
      rw [Gems.get_set]
      split
      · next hd =>
        subst hd
        have := h (choice k (gemColors.filter (fun c => 0 < pg.get c)))
        omega
      · exact h d

/-! ### Deck and display surgery -/

theorem popLast_ne_none (a : Card) (l : List Card) : popLast (a :: l) ≠ none := by
  induction l generalizing a with
  | nil => simp [popLast]
  | cons b tl ih =>
    simp only [popLast]
    match hr : popLast (b :: tl) with
    | none => exact absurd hr (ih b)
    | some (x, r) => simp

theorem popLast_none (l : List Card) : popLast l = none ↔ l = [] := by
  cases l with
  | nil => simp [popLast]
  | cons c rest => simp [popLast_ne_none]

theorem popLast_some (l : List Card) (c : Card) (r : List Card) :
    popLast l = some (c, r) → l = r ++ [c] := by
  induction l generalizing c r with
  | nil => intro h; simp [popLast] at h
  | cons a rest ih =>
    intro h
    cases rest with
    | nil =>
      simp only [popLast, Option.some.injEq, Prod.mk.injEq] at h
      obtain ⟨h1, h2⟩ := h
      subst h1; subst h2
      rfl
    | cons b rest' =>
      simp only [popLast] at h
      match hr : popLast (b :: rest') with
      | none => rw [hr] at h; simp at h
      | some (x, r0) =>
        rw [hr] at h
        simp only [Option.some.injEq, Prod.mk.injEq] at h
        obtain ⟨hx, hr0⟩ := h
        have hbc := ih x r0 hr
        rw [← hr0, ← hx, hbc]
        simp

theorem replenishAux_count (fuel : Nat) : ∀ (disp deck : List Card) (x : Card),
    (replenishAux fuel disp deck).1.count x + (replenishAux fuel disp deck).2.count x
      = disp.count x + deck.count x := by
  induction fuel with
  | zero => intro disp deck x; rfl
  | succ f ih =>
    intro disp deck x
    simp only [replenishAux]
    split
    · match hp : popLast deck with
      | none => simp
      | some (c, rest) =>
        have hd := popLast_some deck c rest hp
        rw [ih (disp ++ [c]) rest x, hd]
        simp [List.count_append]
        omega
    · rfl

theorem replenishAux_mem (fuel : Nat) : ∀ (disp deck : List Card) (y : Card),
    (y ∈ (replenishAux fuel disp deck).1 ∨ y ∈ (replenishAux fuel disp deck).2) →
    y ∈ disp ∨ y ∈ deck := by
  intro disp deck y hy
  have hc := replenishAux_count fuel disp deck y
  rcases hy with hy | hy <;>
    [have := List.count_pos_iff.mpr hy; have := List.count_pos_iff.mpr hy] <;>
  · by_contra hn
    push_neg at hn
    have h1 : disp.count y = 0 := List.count_eq_zero.mpr hn.1
    have h2 : deck.count y = 0 := List.count_eq_zero.mpr hn.2
    omega

theorem replenish_gems (b : Board) : b.replenish_displayed_cards.gems = b.gems := rfl

theorem replenish_nobles (b : Board) : b.replenish_displayed_cards.nobles = b.nobles := rfl

theorem replenish_rows (b : Board) (l : Level) :
    b.replenish_displayed_cards.displayed_cards.get l
        = (replenishLevel (b.displayed_cards.get l) (b.card_decks.get l)).1
      ∧ b.replenish_displayed_cards.card_decks.get l
        = (replenishLevel (b.displayed_cards.get l) (b.card_decks.get l)).2 := by
  cases l <;> exact ⟨rfl, rfl⟩

/-! ### Removal by id -/

theorem removeFirstById_none (l : List Card) (cid : String) :
    removeFirstById l cid = none ↔ ∀ c ∈ l, c.card_id ≠ cid := by
  induction l with
  | nil => simp [removeFirstById]
  | cons a rest ih =>
    simp only [removeFirstById]
    split
    · next h => simp [h]
    · next h =>
      constructor
      · intro hm
        match hr : removeFirstById rest cid with
        | none => simpa [h] using ih.mp hr
        | some (r, rest') => rw [hr] at hm; simp at hm
      · intro hall
        have : removeFirstById rest cid = none := ih.mpr (fun c hc => hall c (List.mem_cons_of_mem _ hc))
        simp [this]

theorem removeFirstById_some (l : List Card) (cid : String) (c : Card) (rest : List Card) :
    removeFirstById l cid = some (c, rest) →
    ∃ l1 l2, l = l1 ++ c :: l2 ∧ rest = l1 ++ l2 ∧ c.card_id = cid ∧ ∀ x ∈ l1, x.card_id ≠ cid := by
  induction l generalizing c rest with
  | nil => intro h; simp [removeFirstById] at h
  | cons a tl ih =>
    intro h
    simp only [removeFirstById] at h
    split at h
    · next heq =>
      simp only [Option.some.injEq, Prod.mk.injEq] at h
      exact ⟨[], tl, by simp [h.1.symm], by simp [h.2.symm], by rw [← h.1]; exact heq, by simp⟩
    · next hne =>
      match hr : removeFirstById tl cid with
      | none => rw [hr] at h; simp at h
      | some (r, rest0) =>
        rw [hr] at h
        simp only [Option.some.injEq, Prod.mk.injEq] at h
        obtain ⟨hc, hrest⟩ := h
        subst hc
        obtain ⟨l1, l2, h1, h2, h3, h4⟩ := ih _ _ hr
        refine ⟨a :: l1, l2, by simp [h1], by simp [← hrest, h2], h3, ?_⟩
        intro x hx
        rcases List.mem_cons.mp hx with hx | hx
        · subst hx; exact hne
        · exact h4 x hx

theorem removeFirstById_fst (l : List Card) (cid : String) :
    (removeFirstById l cid).map Prod.fst = l.find? (fun c => c.card_id = cid) := by
  induction l with
  | nil => rfl
  | cons a rest ih =>
    by_cases h : a.card_id = cid
    · rw [List.find?_cons_of_pos _ (by simpa using h)]
      simp [removeFirstById, h]
    · rw [List.find?_cons_of_neg _ (by simpa using h)]
      simp only [removeFirstById, if_neg h]
      match hr : removeFirstById rest cid with
      | none => rw [hr] at ih; simpa using ih
      | some (r, rest') => rw [hr] at ih; simpa using ih

theorem removeFirstById_count (l : List Card) (cid : String) (c : Card) (rest : List Card)
    (h : removeFirstById l cid = some (c, rest)) (x : Card) :
    l.count x = rest.count x + (if x = c then 1 else 0) := by
  obtain ⟨l1, l2, h1, h2, _, _⟩ := removeFirstById_some l cid c rest h
  subst h1 h2
  by_cases hxc : x = c <;> simp [List.count_append, List.count_cons, hxc] <;> omega

theorem removeNobleById_fields (b : Board) (nid : String) :
    (b.remove_noble nid).gems = b.gems ∧ (b.remove_noble nid).card_decks = b.card_decks
      ∧ (b.remove_noble nid).displayed_cards = b.displayed_cards := by
  unfold Board.remove_noble
  split <;> exact ⟨rfl, rfl, rfl⟩

/-! ### Sums over a list update -/

theorem sum_map_set_int (l : List Player) (i : Nat) (p' : Player) (f : Player → Int)
    (h : i < l.length) :
    ((l.set i p').map f).sum = (l.map f).sum - f (l.getD i dummyPlayer) + f p' := by
  induction l generalizing i with
  | nil => simp at h
  | cons a rest ih =>
    cases i with
    | zero => simp; ring
    | succ j =>
      simp only [List.set_cons_succ, List.map_cons, List.sum_cons, List.getD_cons_succ]
      rw [ih j (by simpa using h)]
      ring

theorem sum_map_set_nat (l : List Player) (i : Nat) (p' : Player) (f : Player → Nat)
    (h : i < l.length) :
    ((l.set i p').map f).sum + f (l.getD i dummyPlayer) = (l.map f).sum + f p' := by
  induction l generalizing i with
  | nil => simp at h
  | cons a rest ih =>
    cases i with
    | zero => simp; ring
    | succ j =>
      simp only [List.set_cons_succ, List.map_cons, List.sum_cons, List.getD_cons_succ]
      have := ih j (by simpa using h)
      omega

theorem getD_mem (l : List Player) (i : Nat) (h : i < l.length) :
    l.getD i dummyPlayer ∈ l := by
  rw [List.getD_eq_getElem l dummyPlayer h]
  exact List.getElem_mem h

/-! ### Bounds on the actual payment map -/

/-- The Gold shortfall a single cost entry leaves after discount and own
tokens. -/
def costShort (p : Player) (pr : GemColor × Nat) : Int :=
  max 0 (max 0 ((pr.2 : Int) - p.get_card_discounts.get pr.1) - p.gems.get pr.1)

theorem costShort_nonneg (p : Player) (pr : GemColor × Nat) : 0 ≤ costShort p pr :=
  le_max_left 0 _

theorem actualCostStep_bounds (p : Player) (acc : Gems) (pr : GemColor × Nat)
    (hg : ∀ c, 0 ≤ p.gems.get c)
    (hacc : ∀ c, 0 ≤ acc.get c ∧ (c ≠ .gold → acc.get c ≤ p.gems.get c)) :
    ∀ c, 0 ≤ (actualCostStep p acc pr).get c
      ∧ (c ≠ .gold → (actualCostStep p acc pr).get c ≤ p.gems.get c) := by
  intro c
  unfold actualCostStep
  simp only []
  split
  · next hrem =>
    have hown1 : 0 ≤ min (max 0 ((pr.2 : Int) - p.get_card_discounts.get pr.1)) (p.gems.get pr.1) :=
      le_min (le_of_lt hrem) (hg pr.1)
    have hown2 : min (max 0 ((pr.2 : Int) - p.get_card_discounts.get pr.1)) (p.gems.get pr.1)
        ≤ p.gems.get pr.1 := min_le_right _ _
    split
    · next hgold =>
      split
      · next hneed =>
        rw [Gems.get_set]
        split
        · next hcg =>
          constructor
          · have h1 := (hacc .gold).1
            have h2 : (0:Int) ≤ min (max 0 ((pr.2 : Int) - p.get_card_discounts.get pr.1)
                - min (max 0 ((pr.2 : Int) - p.get_card_discounts.get pr.1)) (p.gems.get pr.1))
                (p.gems.get .gold) := le_of_lt hneed
            rw [Gems.get_set]
            split
            · omega
            · omega
          · intro hcng; exact absurd hcg hcng
        · rw [Gems.get_set]
          split
          · next hcp =>
            subst hcp
            exact ⟨hown1, fun _ => hown2⟩
          · exact hacc c
      · rw [Gems.get_set]
        split
        · next hcp =>
          subst hcp
          exact ⟨hown1, fun _ => hown2⟩
        · exact hacc c
    · rw [Gems.get_set]
      split
      · next hcp =>
        subst hcp
        exact ⟨hown1, fun _ => hown2⟩
      · exact hacc c
  · exact hacc c

theorem actualCost_fold_bounds (p : Player) (cost : List (GemColor × Nat))
    (hg : ∀ c, 0 ≤ p.gems.get c) :
    ∀ (acc : Gems), (∀ c, 0 ≤ acc.get c ∧ (c ≠ .gold → acc.get c ≤ p.gems.get c)) →
    ∀ c, 0 ≤ (cost.foldl (actualCostStep p) acc).get c
      ∧ (c ≠ .gold → (cost.foldl (actualCostStep p) acc).get c ≤ p.gems.get c) := by
  induction cost with
  | nil => intro acc hacc c; exact hacc c
  | cons pr rest ih =>
    intro acc hacc c
    exact ih _ (actualCostStep_bounds p acc pr hg hacc) c

/-- In every state with non-negative holdings, `get_actual_cost` yields a
non-negative payment for every color, and for non-Gold colors one that fits in
the held tokens. -/
theorem actualCost_bounds (p : Player) (cd : Card) (hg : ∀ c, 0 ≤ p.gems.get c) :
    ∀ c, 0 ≤ (p.get_actual_cost cd).get c
      ∧ (c ≠ .gold → (p.get_actual_cost cd).get c ≤ p.gems.get c) := by
  unfold Player.get_actual_cost
  exact actualCost_fold_bounds p cd.cost hg zeroGems
    (fun c => by rw [zeroGems_get]; exact ⟨le_refl 0, fun _ => hg c⟩)

theorem actualCostStep_gold (p : Player) (acc : Gems) (pr : GemColor × Nat)
    (hg : ∀ c, 0 ≤ p.gems.get c) (hng : pr.1 ≠ .gold) :
    (actualCostStep p acc pr).get .gold ≤ acc.get .gold + costShort p pr := by
  unfold actualCostStep
  simp only []
  have hcsn := costShort_nonneg p pr
  split
  · next hrem =>
    split
    · next hgold =>
      split
      · next hneed =>
        rw [Gems.get_set, if_pos rfl, Gems.get_set, if_neg (fun h => hng h.symm)]
        have : max 0 ((pr.2 : Int) - p.get_card_discounts.get pr.1)
            - min (max 0 ((pr.2 : Int) - p.get_card_discounts.get pr.1)) (p.gems.get pr.1)
            = costShort p pr := by
          unfold costShort
          have := hg pr.1
          omega
        rw [← this]
        have := min_le_left (max 0 ((pr.2 : Int) - p.get_card_discounts.get pr.1)
            - min (max 0 ((pr.2 : Int) - p.get_card_discounts.get pr.1)) (p.gems.get pr.1))
          (p.gems.get .gold)
        omega
      · rw [Gems.get_set, if_neg (fun h => hng h.symm)]
        omega
    · rw [Gems.get_set, if_neg (fun h => hng h.symm)]
      omega
  · omega

theorem actualCost_fold_gold (p : Player) (cost : List (GemColor × Nat))
    (hg : ∀ c, 0 ≤ p.gems.get c) :
    ∀ (acc : Gems), (∀ pr ∈ cost, pr.1 ≠ GemColor.gold) →
    (cost.foldl (actualCostStep p) acc).get .gold
      ≤ acc.get .gold + (cost.map (costShort p)).sum := by
  induction cost with
  | nil => intro acc _; simp
  | cons pr rest ih =>
    intro acc hng
    simp only [List.foldl_cons, List.map_cons, List.sum_cons]
    calc (rest.foldl (actualCostStep p) (actualCostStep p acc pr)).get .gold
        ≤ (actualCostStep p acc pr).get .gold + (rest.map (costShort p)).sum :=
          ih _ (fun q hq => hng q (List.mem_cons_of_mem _ hq))
      _ ≤ acc.get .gold + costShort p pr + (rest.map (costShort p)).sum := by
          have := actualCostStep_gold p acc pr hg (hng pr (List.mem_cons_self _ _))
          omega
      _ = acc.get .gold + (costShort p pr + (rest.map (costShort p)).sum) := by ring

theorem afford_fold_eq (p : Player) (cost : List (GemColor × Nat))
    (hg : ∀ c, 0 ≤ p.gems.get c) :
    ∀ (n : Int), cost.foldl (affordStep p) n = n + (cost.map (costShort p)).sum := by
  induction cost with
  | nil => intro n; simp
  | cons pr rest ih =>
    intro n
    simp only [List.foldl_cons, List.map_cons, List.sum_cons, ih]
    have hstep : affordStep p n pr = n + costShort p pr := by
      unfold affordStep costShort
      simp only []
      have := hg pr.1
      split <;> omega
    rw [hstep]
    ring

/-- Under `can_afford_card` the Gold payment also fits in the held Gold
(this uses that the card's cost has no Gold entry, which holds for every
catalog card). -/
theorem actualCost_gold_le (p : Player) (cd : Card)
    (hg : ∀ c, 0 ≤ p.gems.get c) (hng : ∀ pr ∈ cd.cost, pr.1 ≠ GemColor.gold)
    (haff : p.can_afford_card cd = true) :
    (p.get_actual_cost cd).get .gold ≤ p.gems.get .gold := by
  unfold Player.can_afford_card at haff
  rw [afford_fold_eq p cd.cost hg 0] at haff
  simp only [decide_eq_true_eq] at haff
  unfold Player.get_actual_cost
  calc (cd.cost.foldl (actualCostStep p) zeroGems).get .gold
      ≤ zeroGems.get .gold + (cd.cost.map (costShort p)).sum :=
        actualCost_fold_gold p cd.cost hg zeroGems hng
    _ ≤ p.gems.get .gold := by rw [zeroGems_get]; omega

/-- Every payment map has a non-negative total in non-negative states. -/
theorem actualCost_sum_nonneg (p : Player) (cd : Card) (hg : ∀ c, 0 ≤ p.gems.get c) :
    0 ≤ sumGems (p.get_actual_cost cd) :=
  sumGems_nonneg _ (fun c => (actualCost_bounds p cd hg c).1)

/-! ### Catalog facts -/

theorem catalog_no_gold :
    ∀ cd ∈ createStandardCards, ∀ pr ∈ cd.cost, pr.1 ≠ GemColor.gold := by decide

theorem catalog_nodup : createStandardCards.Nodup := by decide

theorem catalog_levels : ∀ cd ∈ createStandardCards,
    cd.level = 1 ∨ cd.level = 2 ∨ cd.level = 3 := by decide

/-! ### The reachable-state invariant -/

theorem CardRows.rows_get_set (r : CardRows) (l l' : Level) (x : List Card) :
    (r.set l x).get l' = if l' = l then x else r.get l' := by
  cases l <;> cases l' <;> simp [CardRows.get, CardRows.set]

/-- Sum of one color over all players' holdings. -/
def playerGemSum (s : Game) (c : GemColor) : Int :=
  (s.players.map (fun p => p.gems.get c)).sum

/-- Occurrences of a card on the board (all decks and all displays). -/
def boardCardCount (b : Board) (x : Card) : Nat :=
  (b.card_decks.get .one).count x + (b.card_decks.get .two).count x
    + (b.card_decks.get .three).count x + (b.displayed_cards.get .one).count x
    + (b.displayed_cards.get .two).count x + (b.displayed_cards.get .three).count x

/-- Occurrences of a card in one player's hands (reserved or owned). -/
def playerCardCount (p : Player) (x : Card) : Nat :=
  p.reserved_cards.count x + p.cards.count x

/-- Occurrences of a card anywhere in the game. -/
def gameCardCount (s : Game) (x : Card) : Nat :=
  boardCardCount s.board x + (s.players.map (fun p => playerCardCount p x)).sum

/-- Decks and displays only hold cards of their own level. -/
def levelPure (b : Board) : Prop :=
  ∀ l : Level, ∀ x : Card,
    (x ∈ b.card_decks.get l ∨ x ∈ b.displayed_cards.get l) → x.level = levelNat l

/-- The master invariant of reachable game states. -/
structure Inv (s : Game) : Prop where
  hlen : 0 < s.players.length
  hnum : s.num_players = s.players.length
  hidx : s.current_player_index < s.players.length
  hpg : ∀ p ∈ s.players, ∀ c, 0 ≤ p.gems.get c
  hbg : ∀ c, 0 ≤ s.board.gems.get c
  hcons : ∀ c, s.board.gems.get c + playerGemSum s c = (initGems s.num_players).get c
  hten : ∀ p ∈ s.players, p.get_total_gems ≤ 10
  hcards : ∀ x, gameCardCount s x = createStandardCards.count x
  hpure : levelPure s.board

/-- An invariant-preserving state update: the board changes to `b'` and the
current player to `p'`, with tokens and cards only transferred between the
two. -/
theorem Inv.update (s : Game) (h : Inv s) (b' : Board) (p' : Player)
    (hgem : ∀ c, b'.gems.get c + p'.gems.get c
      = s.board.gems.get c + s.get_current_player.gems.get c)
    (hbg' : ∀ c, 0 ≤ b'.gems.get c)
    (hpg' : ∀ c, 0 ≤ p'.gems.get c)
    (hten' : p'.get_total_gems ≤ 10)
    (hcard' : ∀ x, boardCardCount b' x + playerCardCount p' x
      = boardCardCount s.board x + playerCardCount s.get_current_player x)
    (hpure' : levelPure b') :
    Inv { s with board := b', players := s.players.set s.current_player_index p' } := by
  have hcur : s.get_current_player ∈ s.players := getD_mem _ _ h.hidx
  refine ⟨?_, ?_, ?_, ?_, ?_, ?_, ?_, ?_, ?_⟩
  · simpa using h.hlen
  · simpa using h.hnum
  · simpa using h.hidx
  · intro q hq c
    rcases List.mem_or_eq_of_mem_set hq with hq | hq
    · exact h.hpg q hq c
    · subst hq; exact hpg' c
  · exact hbg'
  · intro c
    have hsum := sum_map_set_int s.players s.current_player_index p'
      (fun p => p.gems.get c) h.hidx
    have hc := h.hcons c
    simp only [playerGemSum] at hc ⊢
    simp only [hsum]
    have := hgem c
    simp only [Game.get_current_player] at this
    omega
  · intro q hq
    rcases List.mem_or_eq_of_mem_set hq with hq | hq
    · exact h.hten q hq
    · subst hq; exact hten'
  · intro x
    have hsum := sum_map_set_nat s.players s.current_player_index p'
      (fun p => playerCardCount p x) h.hidx
    have hc := h.hcards x
    simp only [gameCardCount] at hc ⊢
    have := hcard' x
    simp only [Game.get_current_player] at this hsum
    omega
  · exact hpure'

/-- `Inv` only reads the players, player count, board and current index. -/
theorem Inv.of_fields {s s' : Game} (h : Inv s)
    (h1 : s'.players = s.players) (h2 : s'.num_players = s.num_players)
    (h3 : s'.board = s.board) (h4 : s'.current_player_index = s.current_player_index) :
    Inv s' := by
  refine ⟨?_, ?_, ?_, ?_, ?_, ?_, ?_, ?_, ?_⟩ <;>
    simp only [h1, h2, h3, h4, playerGemSum, gameCardCount]
  · exact h.hlen
  · exact h.hnum
  · exact h.hidx
  · exact h.hpg
  · exact h.hbg
  · intro c; have := h.hcons c; simpa [playerGemSum] using this
  · exact h.hten
  · intro x; have := h.hcards x; simpa [gameCardCount] using this
  · exact h.hpure

theorem checkGameEnd_fields (s : Game) :
    s.checkGameEnd.players = s.players ∧ s.checkGameEnd.num_players = s.num_players
      ∧ s.checkGameEnd.board = s.board
      ∧ s.checkGameEnd.current_player_index = s.current_player_index := by
  unfold Game.checkGameEnd
  simp only []
  split <;> split <;> exact ⟨rfl, rfl, rfl, rfl⟩

theorem inv_checkGameEnd (s : Game) (h : Inv s) : Inv s.checkGameEnd := by
  obtain ⟨h1, h2, h3, h4⟩ := checkGameEnd_fields s
  exact h.of_fields h1 h2 h3 h4

theorem inv_checkNoblesVisit (s : Game) (h : Inv s) : Inv s.checkNoblesVisit := by
  unfold Game.checkNoblesVisit
  simp only []
  split
  · exact h
  · next nb _ _ =>
    obtain ⟨hg, hd, hdisp⟩ := removeNobleById_fields s.board nb.noble_id
    apply h.update
    · intro c; rw [hg]
    · intro c; rw [hg]; exact h.hbg c
    · have hp := h.hpg (s.players.getD s.current_player_index dummyPlayer)
        (getD_mem _ _ h.hidx)
      intro c; exact hp c
    · have h10 := h.hten (s.players.getD s.current_player_index dummyPlayer)
        (getD_mem _ _ h.hidx)
      exact h10
    · intro x
      simp only [boardCardCount, playerCardCount, hd, hdisp]
    · intro l x hx
      rw [hd, hdisp] at hx
      exact h.hpure l x hx

/-! ### Helpers for the executor preservation proofs -/

theorem dealAux_count (k : Nat) : ∀ (disp deck : List Card) (x : Card),
    (dealAux k disp deck).1.count x + (dealAux k disp deck).2.count x
      = disp.count x + deck.count x := by
  induction k with
  | zero => intro disp deck x; rfl
  | succ j ih =>
    intro disp deck x
    simp only [dealAux]
    match hp : popLast deck with
    | none => simp
    | some (c, rest) =>
      have hd := popLast_some deck c rest hp
      rw [ih (disp ++ [c]) rest x, hd]
      simp [List.count_append]
      omega

theorem dealAux_mem (k : Nat) : ∀ (disp deck : List Card) (y : Card),
    (y ∈ (dealAux k disp deck).1 ∨ y ∈ (dealAux k disp deck).2) →
    y ∈ disp ∨ y ∈ deck := by
  intro disp deck y hy
  have hc := dealAux_count k disp deck y
  rcases hy with hy | hy <;>
    [have := List.count_pos_iff.mpr hy; have := List.count_pos_iff.mpr hy] <;>
  · by_contra hn
    push_neg at hn
    have h1 : disp.count y = 0 := List.count_eq_zero.mpr hn.1
    have h2 : deck.count y = 0 := List.count_eq_zero.mpr hn.2
    omega

theorem boardCardCount_replenish (b : Board) (x : Card) :
    boardCardCount b.replenish_displayed_cards x = boardCardCount b x := by
  simp only [boardCardCount]
  have h1 := replenish_rows b .one
  have h2 := replenish_rows b .two
  have h3 := replenish_rows b .three
  rw [h1.1, h1.2, h2.1, h2.2, h3.1, h3.2]
  have c1 := replenishAux_count (b.card_decks.get .one).length
    (b.displayed_cards.get .one) (b.card_decks.get .one) x
  have c2 := replenishAux_count (b.card_decks.get .two).length
    (b.displayed_cards.get .two) (b.card_decks.get .two) x
  have c3 := replenishAux_count (b.card_decks.get .three).length
    (b.displayed_cards.get .three) (b.card_decks.get .three) x
  simp only [replenishLevel]
  omega

theorem levelPure_replenish (b : Board) (h : levelPure b) :
    levelPure b.replenish_displayed_cards := by
  intro l x hx
  have hr := replenish_rows b l
  rw [hr.1, hr.2] at hx
  have := replenishAux_mem (b.card_decks.get l).length
    (b.displayed_cards.get l) (b.card_decks.get l) x (by tauto)
  exact h l x (by tauto)

theorem dedup_mem (l : List GemColor) (c : GemColor) : c ∈ dedupColors l ↔ c ∈ l := by
  induction l with
  | nil => simp [dedupColors]
  | cons a rest ih =>
    simp only [dedupColors, List.mem_cons, List.mem_filter]
    constructor
    · rintro (h | ⟨h, _⟩)
      · exact Or.inl h
      · exact Or.inr (ih.mp h)
    · rintro (h | h)
      · exact Or.inl h
      · by_cases hc : c = a
        · exact Or.inl hc
        · exact Or.inr ⟨ih.mpr h, by simpa using hc⟩

theorem dedup_nodup (l : List GemColor) : (dedupColors l).Nodup := by
  induction l with
  | nil => simp [dedupColors]
  | cons a rest ih =>
    simp only [dedupColors]
    refine List.Nodup.cons ?_ (List.Nodup.filter _ ih)
    intro hmem
    have := List.mem_filter.mp hmem
    simp at this

theorem nodup_req_amount (m : List GemColor) (hm : m.Nodup) (c : GemColor) :
    reqAmount (m.map (fun c => (c, (1 : Int)))) c = if c ∈ m then 1 else 0 := by
  induction m with
  | nil => simp [reqAmount]
  | cons a rest ih =>
    simp only [List.map_cons, reqAmount_cons]
    have hrest := ih (List.Nodup.of_cons hm)
    by_cases hac : a = c
    · subst hac
      have : a ∉ rest := (List.nodup_cons.mp hm).1
      simp [hrest, this]
    · rw [hrest, if_neg hac]
      have hca : ¬ c = a := fun h => hac h.symm
      by_cases hcr : c ∈ rest
      · simp [hcr]
      · simp [hcr, hca]

theorem take_gems_true (b : Board) (req : List (GemColor × Int)) (b1 : Board)
    (h : b.take_gems req = (true, b1)) :
    (∀ pr ∈ req, pr.2 ≤ b.gems.get pr.1)
      ∧ b1 = { b with gems := req.foldl (fun g pr => g.set pr.1 (g.get pr.1 - pr.2)) b.gems } := by
  unfold Board.take_gems at h
  split at h
  · next hall =>
    simp only [Prod.mk.injEq] at h
    refine ⟨?_, h.2.symm⟩
    intro pr hpr
    have := List.all_eq_true.mp hall pr hpr
    simpa using this
  · simp at h

/-- A card sitting in any display is a catalog card (by the count
invariant). -/
theorem displayed_in_catalog (s : Game) (h : Inv s) (l : Level) (x : Card)
    (hx : x ∈ s.board.displayed_cards.get l) : x ∈ createStandardCards := by
  rw [← List.count_pos_iff]
  rw [← h.hcards x]
  have hpos : 0 < (s.board.displayed_cards.get l).count x := List.count_pos_iff.mpr hx
  have : 0 < boardCardCount s.board x := by
    simp only [boardCardCount]
    cases l <;> omega
  simp only [gameCardCount]
  omega

/-- A reserved card of any player is a catalog card. -/
theorem reserved_in_catalog (s : Game) (h : Inv s) (p : Player) (hp : p ∈ s.players)
    (x : Card) (hx : x ∈ p.reserved_cards) : x ∈ createStandardCards := by
  rw [← List.count_pos_iff]
  rw [← h.hcards x]
  have hpos : 0 < p.reserved_cards.count x := List.count_pos_iff.mpr hx
  have hple : playerCardCount p x ≤ (s.players.map (fun p => playerCardCount p x)).sum := by
    have : playerCardCount p x ∈ s.players.map (fun p => playerCardCount p x) :=
      List.mem_map_of_mem _ hp
    exact List.single_le_sum (fun y _ => Nat.zero_le y) _ this
  have hppos : 0 < playerCardCount p x := by
    simp only [playerCardCount]; omega
  simp only [gameCardCount]
  omega

theorem checkAndDiscard_bg_nonneg (choice : Nat → List GemColor → GemColor)
    (pg bg : Gems) (h : ∀ c, 0 ≤ bg.get c) :
    ∀ c, 0 ≤ (checkAndDiscard choice pg bg).2.get c :=
  discardAux_bg_nonneg choice _ 0 pg bg h

theorem checkAndDiscard_pg_nonneg (choice : Nat → List GemColor → GemColor)
    (hv : ValidChoice choice) (pg bg : Gems) (h : ∀ c, 0 ≤ pg.get c) :
    ∀ c, 0 ≤ (checkAndDiscard choice pg bg).1.get c :=
  discardAux_pg_nonneg choice hv _ 0 pg bg h

theorem inv_execTakeDifferent (choice : Nat → List GemColor → GemColor)
    (colors : List GemColor) (s : Game) (hv : ValidChoice choice) (h : Inv s) :
    Inv (s.execTakeDifferent choice colors).2 := by
  have hcur := getD_mem s.players s.current_player_index h.hidx
  have hpgc : ∀ c, 0 ≤ s.get_current_player.gems.get c := h.hpg _ hcur
  unfold Game.execTakeDifferent
  simp only []
  split
  · exact h
  · split
    · exact h
    · split
      · exact h
      · next b1 htg =>
        obtain ⟨hall, hb1⟩ := take_gems_true _ _ _ htg
        set req := (dedupColors colors).map (fun c => (c, (1 : Int))) with hreq
        have hamt : ∀ c, reqAmount req c = if c ∈ dedupColors colors then 1 else 0 :=
          nodup_req_amount _ (dedup_nodup colors)
        have hb1g : ∀ c, b1.gems.get c = s.board.gems.get c - reqAmount req c := by
          intro c; rw [hb1]; exact debit_get req s.board.gems c
        have hb1nn : ∀ c, 0 ≤ b1.gems.get c := by
          intro c
          rw [hb1g c, hamt c]
          split
          · next hcm =>
            have hmem : (c, (1 : Int)) ∈ req := by
              rw [hreq]; exact List.mem_map_of_mem _ hcm
            have := hall _ hmem
            simpa using this
          · simpa using h.hbg c
        show Inv _
        apply h.update
        · intro c
          have hpair := checkAndDiscard_get_pair choice
            (req.foldl (fun g (pr : GemColor × Int) => g.set pr.1 (g.get pr.1 + pr.2))
              s.get_current_player.gems) b1.gems c
          have hcg := credit_get req s.get_current_player.gems c
          show (checkAndDiscard choice _ _).2.get c + (checkAndDiscard choice _ _).1.get c = _
          rw [hcg] at hpair
          rw [hb1g c] at hpair
          omega
        · intro c
          exact checkAndDiscard_bg_nonneg choice _ _ hb1nn c
        · intro c
          refine checkAndDiscard_pg_nonneg choice hv _ _ ?_ c
          intro d
          rw [credit_get req s.get_current_player.gems d, hamt d]
          have := hpgc d
          split <;> omega
        · exact checkAndDiscard_le_ten choice _ _
        · intro x
          rw [hb1]
          rfl
        · intro l x hx
          refine h.hpure l x ?_
          rw [hb1] at hx
          exact hx

theorem inv_execTakeSame (choice : Nat → List GemColor → GemColor)
    (color : GemColor) (s : Game) (hv : ValidChoice choice) (h : Inv s) :
    Inv (s.execTakeSame choice color).2 := by
  have hcur := getD_mem s.players s.current_player_index h.hidx
  have hpgc : ∀ c, 0 ≤ s.get_current_player.gems.get c := h.hpg _ hcur
  unfold Game.execTakeSame
  simp only []
  split
  · exact h
  · split
    · exact h
    · next b1 htg =>
      obtain ⟨hall, hb1⟩ := take_gems_true _ _ _ htg
      have h2le : (2 : Int) ≤ s.board.gems.get color := by
        have := hall (color, 2) (List.mem_singleton.mpr rfl)
        simpa using this
      have hb1g : ∀ c, b1.gems.get c
          = s.board.gems.get c - (if color = c then 2 else 0) := by
        intro c
        rw [hb1]
        show (s.board.gems.set color (s.board.gems.get color - 2)).get c = _
        rw [Gems.get_set]
        by_cases hc : c = color
        · subst hc; simp
        · rw [if_neg hc, if_neg (fun hx => hc hx.symm)]
          ring
      have hb1nn : ∀ c, 0 ≤ b1.gems.get c := by
        intro c
        rw [hb1g c]
        have := h.hbg c
        split
        · next hc => subst hc; omega
        · omega
      show Inv _
      apply h.update
      · intro c
        have hpair := checkAndDiscard_get_pair choice
          (s.get_current_player.gems.set color (s.get_current_player.gems.get color + 2))
          b1.gems c
        have hset : (s.get_current_player.gems.set color
              (s.get_current_player.gems.get color + 2)).get c
            = s.get_current_player.gems.get c + (if color = c then 2 else 0) := by
          rw [Gems.get_set]
          by_cases hc : c = color
          · subst hc; simp
          · rw [if_neg hc, if_neg (fun hx => hc hx.symm)]; ring
        rw [hset, hb1g c] at hpair
        show (checkAndDiscard choice _ _).2.get c + (checkAndDiscard choice _ _).1.get c = _
        omega
      · intro c
        exact checkAndDiscard_bg_nonneg choice _ _ hb1nn c
      · intro c
        refine checkAndDiscard_pg_nonneg choice hv _ _ ?_ c
        intro d
        rw [Gems.get_set]
        split
        · have := hpgc color; omega
        · exact hpgc d
      · exact checkAndDiscard_le_ten choice _ _
      · intro x
        rw [hb1]
        rfl
      · intro l x hx
        refine h.hpure l x ?_
        rw [hb1] at hx
        exact hx

/-! ### Card-count bookkeeping for removals -/

theorem boardCount_remove_display (b : Board) (level : Level) (i : String)
    (card : Card) (rest : List Card)
    (hrem : removeFirstById (b.displayed_cards.get level) i = some (card, rest)) (x : Card) :
    boardCardCount { b with displayed_cards := b.displayed_cards.set level rest } x
      + (if x = card then 1 else 0) = boardCardCount b x := by
  have hc := removeFirstById_count _ _ _ _ hrem x
  cases level <;>
    simp only [boardCardCount, CardRows.get, CardRows.set] at hc ⊢ <;> omega

theorem pure_remove_display (b : Board) (level : Level) (i : String)
    (card : Card) (rest : List Card)
    (hrem : removeFirstById (b.displayed_cards.get level) i = some (card, rest))
    (h : levelPure b) :
    levelPure { b with displayed_cards := b.displayed_cards.set level rest } := by
  obtain ⟨l1, l2, hdecomp, hrest, _, _⟩ := removeFirstById_some _ _ _ _ hrem
  intro l x hx
  refine h l x ?_
  rcases hx with hx | hx
  · exact Or.inl hx
  · refine Or.inr ?_
    rw [CardRows.rows_get_set] at hx
    split at hx
    · next hl =>
      subst hl
      rw [hdecomp]
      rw [hrest] at hx
      simp only [List.mem_append] at hx ⊢
      rcases hx with hx | hx
      · exact Or.inl hx
      · exact Or.inr (List.mem_cons_of_mem _ hx)
    · exact hx

theorem boardCount_pop_deck (b : Board) (level : Level)
    (card : Card) (rest : List Card)
    (hp : popLast (b.card_decks.get level) = some (card, rest)) (x : Card) :
    boardCardCount { b with card_decks := b.card_decks.set level rest } x
      + (if x = card then 1 else 0) = boardCardCount b x := by
  have hd := popLast_some _ _ _ hp
  have hc : (b.card_decks.get level).count x = rest.count x + (if x = card then 1 else 0) := by
    rw [hd]
    simp [List.count_append, List.count_singleton]
    split <;> simp_all [eq_comm]
  cases level <;>
    simp only [boardCardCount, CardRows.get, CardRows.set] at hc ⊢ <;> omega

theorem pure_pop_deck (b : Board) (level : Level) (card : Card) (rest : List Card)
    (hp : popLast (b.card_decks.get level) = some (card, rest))
    (h : levelPure b) :
    levelPure { b with card_decks := b.card_decks.set level rest } := by
  have hd := popLast_some _ _ _ hp
  intro l x hx
  refine h l x ?_
  rcases hx with hx | hx
  · refine Or.inl ?_
    rw [CardRows.rows_get_set] at hx
    split at hx
    · next hl =>
      subst hl
      rw [hd]
      exact List.mem_append_left _ hx
    · exact hx
  · exact Or.inr hx

theorem inv_reserveTail (choice : Nat → List GemColor → GemColor) (s : Game)
    (hv : ValidChoice choice) (h : Inv s) (card : Card) (b1 : Board)
    (hg1 : b1.gems = s.board.gems)
    (hcnt : ∀ x, boardCardCount b1 x + (if x = card then 1 else 0) = boardCardCount s.board x)
    (hp1 : levelPure b1) :
    Inv (reserveTail choice s card b1).2 := by
  have hcur := getD_mem s.players s.current_player_index h.hidx
  have hpgc : ∀ c, 0 ≤ s.get_current_player.gems.get c := h.hpg _ hcur
  have h10 : s.get_current_player.get_total_gems ≤ 10 := h.hten _ hcur
  have hb2g : b1.replenish_displayed_cards.gems = s.board.gems := by
    rw [replenish_gems, hg1]
  have hrb : ∀ x, boardCardCount b1.replenish_displayed_cards x = boardCardCount b1 x :=
    boardCardCount_replenish b1
  unfold reserveTail
  simp only []
  split
  · next hgold =>
    show Inv _
    apply h.update
    · intro c
      have hpair := checkAndDiscard_get_pair choice
        (s.get_current_player.gems.set .gold (s.get_current_player.gems.get .gold + 1))
        (b1.replenish_displayed_cards.gems.set .gold
          (b1.replenish_displayed_cards.gems.get .gold - 1)) c
      rw [Gems.get_set, Gems.get_set] at hpair
      have hgc : b1.replenish_displayed_cards.gems.get c = s.board.gems.get c := by
        rw [hb2g]
      have hgg : b1.replenish_displayed_cards.gems.get GemColor.gold
          = s.board.gems.get GemColor.gold := by rw [hb2g]
      show (checkAndDiscard choice
          (s.get_current_player.gems.set .gold (s.get_current_player.gems.get .gold + 1))
          (b1.replenish_displayed_cards.gems.set .gold
            (b1.replenish_displayed_cards.gems.get .gold - 1))).2.get c
        + (checkAndDiscard choice
          (s.get_current_player.gems.set .gold (s.get_current_player.gems.get .gold + 1))
          (b1.replenish_displayed_cards.gems.set .gold
            (b1.replenish_displayed_cards.gems.get .gold - 1))).1.get c
        = s.board.gems.get c + s.get_current_player.gems.get c
      by_cases hc : c = GemColor.gold
      · rw [if_pos hc, if_pos hc] at hpair
        subst hc
        omega
      · rw [if_neg hc, if_neg hc] at hpair
        omega
    · intro c
      refine checkAndDiscard_bg_nonneg choice _ _ ?_ c
      intro d
      rw [Gems.get_set]
      rw [hb2g] at hgold ⊢
      have := h.hbg d
      split <;> omega
    · intro c
      refine checkAndDiscard_pg_nonneg choice hv _ _ ?_ c
      intro d
      rw [Gems.get_set]
      have := hpgc d
      have := hpgc .gold
      split <;> omega
    · exact checkAndDiscard_le_ten choice _ _
    · intro x
      show boardCardCount b1.replenish_displayed_cards x
          + ((s.get_current_player.reserved_cards ++ [card]).count x
            + s.get_current_player.cards.count x)
        = boardCardCount s.board x + playerCardCount s.get_current_player x
      have hc1 := hrb x
      have hc2 := hcnt x
      have hc3 : (s.get_current_player.reserved_cards ++ [card]).count x
          = s.get_current_player.reserved_cards.count x + (if x = card then 1 else 0) := by
        by_cases hx : x = card <;> simp [List.count_append, hx]
      rw [hc3]
      simp only [playerCardCount]
      omega
    · intro l x hx
      exact levelPure_replenish b1 hp1 l x hx
  · next hgold =>
    show Inv _
    apply h.update
    · intro c
      show b1.replenish_displayed_cards.gems.get c + s.get_current_player.gems.get c = _
      rw [hb2g]
    · intro c
      show 0 ≤ b1.replenish_displayed_cards.gems.get c
      rw [hb2g]
      exact h.hbg c
    · intro c
      exact hpgc c
    · exact h10
    · intro x
      show boardCardCount b1.replenish_displayed_cards x
          + ((s.get_current_player.reserved_cards ++ [card]).count x
            + s.get_current_player.cards.count x)
        = boardCardCount s.board x + playerCardCount s.get_current_player x
      have hc1 := hrb x
      have hc2 := hcnt x
      have hc3 : (s.get_current_player.reserved_cards ++ [card]).count x
          = s.get_current_player.reserved_cards.count x + (if x = card then 1 else 0) := by
        by_cases hx : x = card <;> simp [List.count_append, hx]
      rw [hc3]
      simp only [playerCardCount]
      omega
    · intro l x hx
      exact levelPure_replenish b1 hp1 l x hx

theorem inv_execReserveCard (choice : Nat → List GemColor → GemColor)
    (level : Level) (cid : Option String) (from_deck : Bool) (s : Game)
    (hv : ValidChoice choice) (h : Inv s) :
    Inv (s.execReserveCard choice level cid from_deck).2 := by
  unfold Game.execReserveCard
  simp only []
  split
  · exact h
  · cases from_deck with
    | true =>
      rw [if_pos rfl]
      cases hp : popLast (s.board.card_decks.get level) with
      | none => exact h
      | some pr =>
        obtain ⟨card, rest⟩ := pr
        refine inv_reserveTail choice s hv h card _ rfl ?_ ?_
        · exact boardCount_pop_deck s.board level card rest hp
        · exact pure_pop_deck s.board level card rest hp h.hpure
    | false =>
      rw [if_neg (by simp)]
      cases cid with
      | none => exact h
      | some i =>
        simp only []
        cases hrem : removeFirstById (s.board.displayed_cards.get level) i with
        | none => exact h
        | some pr =>
          obtain ⟨card, rest⟩ := pr
          refine inv_reserveTail choice s hv h card _ rfl ?_ ?_
          · exact boardCount_remove_display s.board level i card rest hrem
          · exact pure_remove_display s.board level i card rest hrem h.hpure

theorem removeFirstById_mem (l : List Card) (cid : String) (c : Card) (rest : List Card)
    (h : removeFirstById l cid = some (c, rest)) : c ∈ l := by
  obtain ⟨l1, l2, h1, _, _, _⟩ := removeFirstById_some l cid c rest h
  rw [h1]
  exact List.mem_append_right _ (List.mem_cons_self _ _)

theorem inv_execBuyCard (level : Level) (cid : String) (s : Game) (h : Inv s) :
    Inv (s.execBuyCard level cid).2 := by
  have hcur := getD_mem s.players s.current_player_index h.hidx
  have hpgc : ∀ c, 0 ≤ s.get_current_player.gems.get c := h.hpg _ hcur
  have h10 : s.get_current_player.get_total_gems ≤ 10 := h.hten _ hcur
  unfold Game.execBuyCard
  simp only []
  cases hf : (s.board.displayed_cards.get level).find? (fun c => c.card_id = cid) with
  | none => exact h
  | some card =>
    simp only []
    split
    · exact h
    · next haffn =>
      have haff : s.get_current_player.can_afford_card card = true := by
        revert haffn
        cases s.get_current_player.can_afford_card card <;> simp
      have hmem : card ∈ s.board.displayed_cards.get level := List.mem_of_find?_eq_some hf
      have hcat : card ∈ createStandardCards := displayed_in_catalog s h level card hmem
      have hng := catalog_no_gold card hcat
      have hbnd := actualCost_bounds s.get_current_player card hpgc
      have hgl := actualCost_gold_le s.get_current_player card hpgc hng haff
      have hfst : (removeFirstById (s.board.displayed_cards.get level) cid).map Prod.fst
          = some card := by rw [removeFirstById_fst]; rw [hf]
      cases hrem : removeFirstById (s.board.displayed_cards.get level) cid with
      | none => rw [hrem] at hfst; simp at hfst
      | some pr =>
        obtain ⟨card', rest⟩ := pr
        rw [hrem] at hfst
        simp only [Option.map_some', Option.some.injEq] at hfst
        rw [hfst] at hrem
        refine inv_checkGameEnd _ (inv_checkNoblesVisit _ ?_)
        unfold Board.remove_displayed_card
        simp only []
        rw [show (({ s.board with
            gems := s.board.gems.add (s.get_current_player.get_actual_cost card) } :
              Board).displayed_cards.get level)
          = s.board.displayed_cards.get level from rfl]
        rw [hrem]
        simp only []
        show Inv _
        apply h.update
        · intro c
          show (s.board.gems.add (s.get_current_player.get_actual_cost card)).get c
              + (s.get_current_player.gems.sub (s.get_current_player.get_actual_cost card)).get c
            = s.board.gems.get c + s.get_current_player.gems.get c
          rw [Gems.get_add, Gems.get_sub]
          ring
        · intro c
          show 0 ≤ (s.board.gems.add (s.get_current_player.get_actual_cost card)).get c
          rw [Gems.get_add]
          have := h.hbg c
          have := (hbnd c).1
          omega
        · intro c
          show 0 ≤ (s.get_current_player.gems.sub (s.get_current_player.get_actual_cost card)).get c
          rw [Gems.get_sub]
          by_cases hc : c = GemColor.gold
          · subst hc; omega
          · have := (hbnd c).2 hc
            omega
        · show sumGems (s.get_current_player.gems.sub (s.get_current_player.get_actual_cost card)) ≤ 10
          rw [sumGems_sub]
          have := actualCost_sum_nonneg s.get_current_player card hpgc
          have hsum : sumGems s.get_current_player.gems ≤ 10 := h10
          omega
        · intro x
          show boardCardCount ({ s.board with
                displayed_cards := s.board.displayed_cards.set level rest } :
                  Board).replenish_displayed_cards x
              + (s.get_current_player.reserved_cards.count x
                + (s.get_current_player.cards ++ [card]).count x)
            = boardCardCount s.board x + playerCardCount s.get_current_player x
          have hrepl := boardCardCount_replenish
            { s.board with displayed_cards := s.board.displayed_cards.set level rest } x
          have hrc := boardCount_remove_display s.board level cid card rest hrem x
          have hc3 : (s.get_current_player.cards ++ [card]).count x
              = s.get_current_player.cards.count x + (if x = card then 1 else 0) := by
            by_cases hx : x = card <;> simp [List.count_append, hx]
          rw [hc3]
          simp only [playerCardCount]
          simp only [] at hrc hrepl
          omega
        · intro l x hx
          exact levelPure_replenish _
            (pure_remove_display s.board level cid card rest hrem h.hpure) l x hx

theorem inv_execBuyReserved (cid : String) (s : Game) (h : Inv s) :
    Inv (s.execBuyReserved cid).2 := by
  have hcur := getD_mem s.players s.current_player_index h.hidx
  have hpgc : ∀ c, 0 ≤ s.get_current_player.gems.get c := h.hpg _ hcur
  have h10 : s.get_current_player.get_total_gems ≤ 10 := h.hten _ hcur
  unfold Game.execBuyReserved
  simp only []
  cases hrem : removeFirstById s.get_current_player.reserved_cards cid with
  | none => exact h
  | some pr =>
    obtain ⟨card, rest⟩ := pr
    simp only []
    split
    · exact h
    · next haffn =>
      have haff : s.get_current_player.can_afford_card card = true := by
        revert haffn
        cases s.get_current_player.can_afford_card card <;> simp
      have hmem : card ∈ s.get_current_player.reserved_cards :=
        removeFirstById_mem _ _ _ _ hrem
      have hcat : card ∈ createStandardCards := reserved_in_catalog s h _ hcur card hmem
      have hng := catalog_no_gold card hcat
      have hbnd := actualCost_bounds s.get_current_player card hpgc
      have hgl := actualCost_gold_le s.get_current_player card hpgc hng haff
      refine inv_checkGameEnd _ (inv_checkNoblesVisit _ ?_)
      show Inv _
      apply h.update
      · intro c
        show (s.board.gems.add (s.get_current_player.get_actual_cost card)).get c
            + (s.get_current_player.gems.sub (s.get_current_player.get_actual_cost card)).get c
          = s.board.gems.get c + s.get_current_player.gems.get c
        rw [Gems.get_add, Gems.get_sub]
        ring
      · intro c
        show 0 ≤ (s.board.gems.add (s.get_current_player.get_actual_cost card)).get c
        rw [Gems.get_add]
        have := h.hbg c
        have := (hbnd c).1
        omega
      · intro c
        show 0 ≤ (s.get_current_player.gems.sub (s.get_current_player.get_actual_cost card)).get c
        rw [Gems.get_sub]
        by_cases hc : c = GemColor.gold
        · subst hc; omega
        · have := (hbnd c).2 hc
          omega
      · show sumGems (s.get_current_player.gems.sub (s.get_current_player.get_actual_cost card)) ≤ 10
        rw [sumGems_sub]
        have := actualCost_sum_nonneg s.get_current_player card hpgc
        have hsum : sumGems s.get_current_player.gems ≤ 10 := h10
        omega
      · intro x
        show boardCardCount s.board x
            + (rest.count x + (s.get_current_player.cards ++ [card]).count x)
          = boardCardCount s.board x + playerCardCount s.get_current_player x
        have hrc := removeFirstById_count _ _ _ _ hrem x
        have hc3 : (s.get_current_player.cards ++ [card]).count x
            = s.get_current_player.cards.count x + (if x = card then 1 else 0) := by
          by_cases hx : x = card <;> simp [List.count_append, hx]
        rw [hc3]
        simp only [playerCardCount]
        omega
      · exact h.hpure

theorem inv_next_player (s : Game) (h : Inv s) : Inv s.next_player := by
  have hpos : 0 < s.num_players := by rw [h.hnum]; exact h.hlen
  have hidx' : (s.current_player_index + 1) % s.num_players < s.players.length := by
    rw [← h.hnum]
    exact Nat.mod_lt _ hpos
  unfold Game.next_player
  simp only []
  split <;>
    exact ⟨h.hlen, h.hnum, hidx', h.hpg, h.hbg, h.hcons, h.hten, h.hcards, h.hpure⟩

theorem inv_execute_action (choice : Nat → List GemColor → GemColor) (a : Action)
    (s : Game) (hv : ValidChoice choice) (h : Inv s) :
    Inv (s.execute_action choice a).2 := by
  unfold Game.execute_action
  simp only []
  have h0 : Inv { s with history := s.history
      ++ [(⟨s.round_number, s.get_current_player.player_id, a.describe, a.to_dict⟩ :
        HistoryEntry)] } := h.of_fields rfl rfl rfl rfl
  cases a with
  | take_different_gems colors => exact inv_execTakeDifferent choice colors _ hv h0
  | take_same_gems c => exact inv_execTakeSame choice c _ hv h0
  | reserve_card level cid fd => exact inv_execReserveCard choice level cid fd _ hv h0
  | buy_card level cid => exact inv_execBuyCard level cid _ h0
  | buy_reserved_card cid => exact inv_execBuyReserved cid _ h0

theorem count_filter_level (l : List Card) (n : Nat) (x : Card) :
    (l.filter (fun c => c.level = n)).count x = if x.level = n then l.count x else 0 := by
  induction l with
  | nil => simp
  | cons a tl ih =>
    rw [List.filter_cons]
    by_cases ha : a.level = n
    · rw [if_pos (by simpa using ha)]
      by_cases hx : x = a
      · subst hx
        simp only [List.count_cons_self, ih, if_pos ha]
      · rw [List.count_cons_of_ne hx, ih, List.count_cons_of_ne hx]
    · rw [if_neg (by simpa using ha), ih]
      by_cases hxl : x.level = n
      · rw [if_pos hxl, if_pos hxl]
        have hx : x ≠ a := fun hxa => ha (hxa ▸ hxl)
        rw [List.count_cons_of_ne hx]
      · rw [if_neg hxl, if_neg hxl]

theorem initGems_nonneg (n : Nat) (c : GemColor) : 0 ≤ (initGems n).get c := by
  have hb : (0 : Int) ≤ baseGems n := by
    unfold baseGems
    split_ifs <;> norm_num
  cases c <;> simp [initGems, Gems.get] <;> omega

theorem inv_init (pnames : List (String × String)) (d1 d2 d3 : List Card)
    (snobles : List Noble) (hp : pnames ≠ [])
    (h1 : d1.Perm (createStandardCards.filter (fun c => c.level = 1)))
    (h2 : d2.Perm (createStandardCards.filter (fun c => c.level = 2)))
    (h3 : d3.Perm (createStandardCards.filter (fun c => c.level = 3))) :
    Inv (initGame pnames d1 d2 d3 snobles) := by
  have hlen : 0 < (pnames.map (fun pr => mkPlayer pr.1 pr.2)).length := by
    simpa using List.length_pos.mpr hp
  have hzero : ∀ p ∈ pnames.map (fun pr => mkPlayer pr.1 pr.2),
      p.gems = zeroGems ∧ p.cards = [] ∧ p.reserved_cards = [] := by
    intro p hp2
    obtain ⟨pr, _, hpr⟩ := List.mem_map.mp hp2
    rw [← hpr]
    exact ⟨rfl, rfl, rfl⟩
  refine ⟨hlen, rfl, hlen, ?_, ?_, ?_, ?_, ?_, ?_⟩
  · intro p hp2 c
    rw [(hzero p hp2).1, zeroGems_get]
  · intro c
    exact initGems_nonneg _ c
  · intro c
    have hsum : playerGemSum (initGame pnames d1 d2 d3 snobles) c = 0 := by
      apply List.sum_eq_zero
      intro y hy
      obtain ⟨p, hp2, hpy⟩ := List.mem_map.mp hy
      rw [← hpy, (hzero p hp2).1, zeroGems_get]
    rw [hsum]
    simp [initGame, initBoard]
  · intro p hp2
    show sumGems p.gems ≤ 10
    rw [(hzero p hp2).1]
    simp [sumGems, zeroGems]
  · intro x
    have hd1 := dealAux_count 4 [] d1 x
    have hd2 := dealAux_count 4 [] d2 x
    have hd3 := dealAux_count 4 [] d3 x
    have hc1 := h1.count_eq x
    have hc2 := h2.count_eq x
    have hc3 := h3.count_eq x
    rw [count_filter_level] at hc1 hc2 hc3
    have hpsum : ((pnames.map (fun pr => mkPlayer pr.1 pr.2)).map
        (fun p => playerCardCount p x)).sum = 0 := by
      apply List.sum_eq_zero
      intro y hy
      obtain ⟨p, hp2, hpy⟩ := List.mem_map.mp hy
      obtain ⟨_, hcd, hrs⟩ := hzero p hp2
      rw [← hpy]
      simp [playerCardCount, hcd, hrs]
    show boardCardCount (initBoard (pnames.map (fun pr => mkPlayer pr.1 pr.2)).length
        d1 d2 d3 snobles) x
      + ((pnames.map (fun pr => mkPlayer pr.1 pr.2)).map (fun p => playerCardCount p x)).sum
      = createStandardCards.count x
    rw [hpsum]
    have hcount : boardCardCount (initBoard (pnames.map (fun pr => mkPlayer pr.1 pr.2)).length
        d1 d2 d3 snobles) x = d1.count x + d2.count x + d3.count x := by
      simp only [boardCardCount, initBoard, CardRows.get]
      simp at hd1 hd2 hd3
      omega
    rw [hcount]
    by_cases hl1 : x.level = 1
    · have hl2 : ¬ x.level = 2 := by omega
      have hl3 : ¬ x.level = 3 := by omega
      rw [if_pos hl1] at hc1
      rw [if_neg hl2] at hc2
      rw [if_neg hl3] at hc3
      omega
    · by_cases hl2 : x.level = 2
      · have hl3 : ¬ x.level = 3 := by omega
        rw [if_neg hl1] at hc1
        rw [if_pos hl2] at hc2
        rw [if_neg hl3] at hc3
        omega
      · by_cases hl3 : x.level = 3
        · rw [if_neg hl1] at hc1
          rw [if_neg hl2] at hc2
          rw [if_pos hl3] at hc3
          omega
        · rw [if_neg hl1] at hc1
          rw [if_neg hl2] at hc2
          rw [if_neg hl3] at hc3
          have hcat : createStandardCards.count x = 0 := by
            rw [List.count_eq_zero]
            intro hmem
            rcases catalog_levels x hmem with h | h | h <;> omega
          omega
  · intro l x hx
    have hmemd : ∀ (d : List Card) (n : Nat),
        d.Perm (createStandardCards.filter (fun c => c.level = n)) → x ∈ d → x.level = n := by
      intro d n hperm hxd
      have := hperm.mem_iff.mp hxd
      have := List.mem_filter.mp this
      simpa using this.2
    have hdeal : ∀ (d : List Card), (x ∈ (dealAux 4 [] d).1 ∨ x ∈ (dealAux 4 [] d).2) →
        x ∈ d := by
      intro d hd
      rcases dealAux_mem 4 [] d x hd with hd | hd
      · simp at hd
      · exact hd
    cases l <;>
      simp only [initGame, initBoard, CardRows.get, levelNat] at hx ⊢
    · exact hmemd d1 1 h1 (hdeal d1 (by tauto))
    · exact hmemd d2 2 h2 (hdeal d2 (by tauto))
    · exact hmemd d3 3 h3 (hdeal d3 (by tauto))

/-- The master invariant: every reachable state satisfies `Inv`. -/
theorem reachable_inv (s : Game) (h : Reachable s) : Inv s := by
  induction h with
  | init pnames d1 d2 d3 snobles hp h1 h2 h3 _ => exact inv_init pnames d1 d2 d3 _ hp h1 h2 h3
  | step s a choice hv _ ih => exact inv_execute_action choice a s hv ih
  | advance s _ ih => exact inv_next_player s ih

/-! ### Characterizing the winner loop -/

/-- Ghost accumulator: the running maximum of `_determine_winner` after
processing a prefix (`max_score` starts at -1). -/
def maxI (done : List Player) : Int :=
  done.foldl (fun m p => max m (p.get_score : Int)) (-1)

/-- Ghost accumulator: `potential_winners` after processing a prefix. -/
def pwOf (done : List Player) : List Player :=
  done.filter (fun p => (p.get_score : Int) = maxI done)

/-- Ghost accumulator: `min_cards` after processing a prefix. -/
def mcOf (done : List Player) : Option Nat :=
  ((pwOf done).map (fun p => p.cards.length)).foldl minCandidate none

theorem foldl_max_le_init (done : List Player) : ∀ (i : Int),
    i ≤ done.foldl (fun m p => max m (p.get_score : Int)) i := by
  induction done with
  | nil => intro i; simp
  | cons p rest ih =>
    intro i
    calc i ≤ max i (p.get_score : Int) := le_max_left _ _
      _ ≤ _ := ih _

theorem foldl_max_mem (done : List Player) : ∀ (i : Int), ∀ q ∈ done,
    (q.get_score : Int) ≤ done.foldl (fun m p => max m (p.get_score : Int)) i := by
  induction done with
  | nil => simp
  | cons p rest ih =>
    intro i q hq
    rcases List.mem_cons.mp hq with hq | hq
    · subst hq
      calc (q.get_score : Int) ≤ max i (q.get_score : Int) := le_max_right _ _
        _ ≤ _ := foldl_max_le_init rest _
    · exact ih _ q hq

theorem maxI_ub (done : List Player) : ∀ q ∈ done, (q.get_score : Int) ≤ maxI done :=
  foldl_max_mem done (-1)

theorem maxI_append (done : List Player) (p : Player) :
    maxI (done ++ [p]) = max (maxI done) (p.get_score : Int) := by
  simp [maxI, List.foldl_append]

theorem pwOf_append_gt (done : List Player) (p : Player)
    (h : maxI done < (p.get_score : Int)) : pwOf (done ++ [p]) = [p] := by
  unfold pwOf
  rw [List.filter_append, maxI_append]
  rw [max_eq_right (le_of_lt h)]
  have h1 : done.filter (fun q => ((q.get_score : Int) = (p.get_score : Int) : Bool)) = [] := by
    rw [List.filter_eq_nil_iff]
    intro q hq
    have := maxI_ub done q hq
    simp only [decide_eq_true_eq]
    omega
  rw [h1]
  simp

theorem pwOf_append_eq (done : List Player) (p : Player)
    (h : (p.get_score : Int) = maxI done) : pwOf (done ++ [p]) = pwOf done ++ [p] := by
  unfold pwOf
  rw [List.filter_append, maxI_append, max_eq_left (le_of_eq h)]
  congr 1
  simp [h]

theorem pwOf_append_lt (done : List Player) (p : Player)
    (h : (p.get_score : Int) < maxI done) : pwOf (done ++ [p]) = pwOf done := by
  unfold pwOf
  rw [List.filter_append, maxI_append, max_eq_left (le_of_lt h)]
  have h1 : [p].filter (fun q => ((q.get_score : Int) = maxI done : Bool)) = [] := by
    simp
    omega
  rw [h1]
  simp

theorem mcOf_append_gt (done : List Player) (p : Player)
    (h : maxI done < (p.get_score : Int)) : mcOf (done ++ [p]) = some p.cards.length := by
  unfold mcOf
  rw [pwOf_append_gt done p h]
  rfl

theorem mcOf_append_eq (done : List Player) (p : Player)
    (h : (p.get_score : Int) = maxI done) :
    mcOf (done ++ [p]) = minCandidate (mcOf done) p.cards.length := by
  unfold mcOf
  rw [pwOf_append_eq done p h, List.map_append, List.foldl_append]
  rfl

theorem mcOf_append_lt (done : List Player) (p : Player)
    (h : (p.get_score : Int) < maxI done) : mcOf (done ++ [p]) = mcOf done := by
  unfold mcOf
  rw [pwOf_append_lt done p h]

theorem winnersLoop_ghost : ∀ (rest done : List Player),
    winnersLoop rest (maxI done) (mcOf done) (pwOf done)
      = (maxI (done ++ rest), mcOf (done ++ rest), pwOf (done ++ rest)) := by
  intro rest
  induction rest with
  | nil => intro done; simp [winnersLoop]
  | cons p rest' ih =>
    intro done
    have hassoc : done ++ p :: rest' = (done ++ [p]) ++ rest' := by simp
    rw [hassoc]
    show winnersLoop (p :: rest') _ _ _ = _
    unfold winnersLoop
    split
    · next hgt =>
      have e1 := maxI_append done p
      rw [max_eq_right (le_of_lt hgt)] at e1
      have e2 := mcOf_append_gt done p hgt
      have e3 := pwOf_append_gt done p hgt
      have hh := ih (done ++ [p])
      rw [e1, e2, e3] at hh
      exact hh
    · next hgt =>
      split
      · next heq =>
        have e1 := maxI_append done p
        rw [max_eq_left (le_of_eq heq)] at e1
        have e2 := mcOf_append_eq done p heq
        have e3 := pwOf_append_eq done p heq
        have hh := ih (done ++ [p])
        rw [e1, e2, e3] at hh
        exact hh
      · next hne =>
        have hlt : (p.get_score : Int) < maxI done := by
          push_neg at hgt
          omega
        have e1 := maxI_append done p
        rw [max_eq_left (le_of_lt hlt)] at e1
        have e2 := mcOf_append_lt done p hlt
        have e3 := pwOf_append_lt done p hlt
        have hh := ih (done ++ [p])
        rw [e1, e2, e3] at hh
        exact hh

theorem winnersLoop_closed (players : List Player) :
    winnersLoop players (-1) none []
      = (maxI players, mcOf players, pwOf players) := by
  have h := winnersLoop_ghost players []
  simpa [maxI, mcOf, pwOf] using h

theorem minFold_go (l : List Nat) : ∀ (a : Nat), ∃ b,
    l.foldl minCandidate (some a) = some b ∧ (b = a ∨ b ∈ l) ∧ b ≤ a ∧ ∀ n ∈ l, b ≤ n := by
  induction l with
  | nil => intro a; exact ⟨a, rfl, Or.inl rfl, le_refl a, by simp⟩
  | cons n tl ih =>
    intro a
    obtain ⟨b, hfold, hmem, hle, hall⟩ := ih (min a n)
    refine ⟨b, ?_, ?_, ?_, ?_⟩
    · simpa [minCandidate] using hfold
    · rcases hmem with hb | hb
      · rcases min_choice a n with hmin | hmin
        · exact Or.inl (by rw [hb, hmin])
        · refine Or.inr ?_
          rw [hb, hmin]
          exact List.mem_cons_self _ _
      · exact Or.inr (List.mem_cons_of_mem _ hb)
    · exact le_trans hle (min_le_left a n)
    · intro x hx
      rcases List.mem_cons.mp hx with hx | hx
      · rw [hx]
        exact le_trans hle (min_le_right a n)
      · exact hall x hx

theorem minFold_spec (l : List Nat) (h : l ≠ []) : ∃ m,
    l.foldl minCandidate none = some m ∧ m ∈ l ∧ ∀ n ∈ l, m ≤ n := by
  cases l with
  | nil => exact absurd rfl h
  | cons a tl =>
    obtain ⟨b, hfold, hmem, hle, hall⟩ := minFold_go tl a
    refine ⟨b, by simpa [minCandidate] using hfold, ?_, ?_⟩
    · rcases hmem with hb | hb
      · exact hb ▸ List.mem_cons_self _ _
      · exact List.mem_cons_of_mem _ hb
    · intro n hn
      rcases List.mem_cons.mp hn with hn | hn
      · subst hn; exact hle
      · exact hall n hn

theorem foldl_max_attained (l : List Player) : ∀ (i : Int),
    l.foldl (fun m p => max m (p.get_score : Int)) i = i
      ∨ ∃ q ∈ l, l.foldl (fun m p => max m (p.get_score : Int)) i = (q.get_score : Int) := by
  induction l with
  | nil => intro i; exact Or.inl rfl
  | cons p rest ih =>
    intro i
    rcases ih (max i (p.get_score : Int)) with hr | ⟨q, hq, hr⟩
    · rcases max_choice i (p.get_score : Int) with hm | hm
      · exact Or.inl (by simp only [List.foldl_cons]; rw [hr, hm])
      · exact Or.inr ⟨p, List.mem_cons_self _ _, by simp only [List.foldl_cons]; rw [hr, hm]⟩
    · exact Or.inr ⟨q, List.mem_cons_of_mem _ hq, by simpa using hr⟩

theorem maxI_attained (players : List Player) (h : players ≠ []) :
    ∃ q ∈ players, maxI players = (q.get_score : Int) := by
  rcases foldl_max_attained players (-1) with hr | hr
  · exfalso
    cases players with
    | nil => exact h rfl
    | cons p rest =>
      have hub := maxI_ub (p :: rest) p (List.mem_cons_self _ _)
      have hx : maxI (p :: rest) = -1 := hr
      rw [hx] at hub
      omega
  · exact hr

/-- The winner list computed by `_determine_winner`: exactly the players of
maximum score whose owned-card count is minimal among the maximum scorers. -/
theorem determineWinner_spec (players : List Player) (h : players ≠ []) :
    ∃ M m, (∀ p ∈ players, p.get_score ≤ M) ∧ (∃ p ∈ players, p.get_score = M)
      ∧ (∀ p ∈ players, p.get_score = M → m ≤ p.cards.length)
      ∧ (∃ p ∈ players, p.get_score = M ∧ p.cards.length = m)
      ∧ determineWinner players
          = players.filter (fun p => (p.get_score = M ∧ p.cards.length = m : Bool)) := by
  obtain ⟨qM, hqM, hM⟩ := maxI_attained players h
  have hub : ∀ p ∈ players, p.get_score ≤ qM.get_score := by
    intro p hp
    have := maxI_ub players p hp
    rw [hM] at this
    exact_mod_cast this
  have hpw : pwOf players
      = players.filter (fun p => (p.get_score = qM.get_score : Bool)) := by
    unfold pwOf
    apply List.filter_congr
    intro p _
    rw [hM]
    simp only [decide_eq_decide]
    exact_mod_cast Iff.rfl
  have hqpw : qM ∈ pwOf players := by
    rw [hpw]
    exact List.mem_filter.mpr ⟨hqM, by simp⟩
  have hpwne : (pwOf players).map (fun p => p.cards.length) ≠ [] := by
    intro hnil
    rw [List.map_eq_nil_iff] at hnil
    rw [hnil] at hqpw
    simp at hqpw
  obtain ⟨m, hfold, hmmem, hmall⟩ := minFold_spec _ hpwne
  obtain ⟨qm, hqm, hqmlen⟩ := List.mem_map.mp hmmem
  have hqm2 := List.mem_filter.mp (hpw ▸ hqm)
  refine ⟨qM.get_score, m, hub, ⟨qM, hqM, rfl⟩, ?_, ?_, ?_⟩
  · intro p hp hscore
    have hppw : p ∈ pwOf players := by
      rw [hpw]
      exact List.mem_filter.mpr ⟨hp, by simp [hscore]⟩
    exact hmall _ (List.mem_map_of_mem _ hppw)
  · exact ⟨qm, hqm2.1, by simpa using hqm2.2, hqmlen⟩
  · unfold determineWinner
    simp only []
    rw [winnersLoop_closed]
    simp only []
    have hmc : mcOf players = some m := hfold
    calc (pwOf players).filter
          (fun p => ((p.get_score : Int) = maxI players
            ∧ some p.cards.length = mcOf players : Bool))
        = (pwOf players).filter (fun p => (p.cards.length = m : Bool)) := by
          apply List.filter_congr
          intro p hppw
          have hsc : (p.get_score : Int) = maxI players :=
            of_decide_eq_true (List.mem_filter.mp hppw).2
          rw [hmc]
          simp [hsc]
      _ = players.filter (fun p => (p.get_score = qM.get_score ∧ p.cards.length = m : Bool)) := by
          rw [hpw, List.filter_filter]
          apply List.filter_congr
          intro p _
          by_cases h1 : p.get_score = qM.get_score <;>
            by_cases h2 : p.cards.length = m <;> simp [h1, h2]

/-! ### Effect of each executor on history, flags, and failure -/

theorem execTakeDifferent_history (choice : Nat → List GemColor → GemColor)
    (colors : List GemColor) (s : Game) :
    (s.execTakeDifferent choice colors).2.history = s.history := by
  unfold Game.execTakeDifferent
  simp only []
  split
  · rfl
  · split
    · rfl
    · split <;> rfl

theorem execTakeSame_history (choice : Nat → List GemColor → GemColor)
    (color : GemColor) (s : Game) :
    (s.execTakeSame choice color).2.history = s.history := by
  unfold Game.execTakeSame
  simp only []
  split
  · rfl
  · split <;> rfl

theorem reserveTail_history (choice : Nat → List GemColor → GemColor) (s : Game)
    (card : Card) (b1 : Board) :
    (reserveTail choice s card b1).2.history = s.history := by
  unfold reserveTail
  simp only []
  split <;> rfl

theorem execReserveCard_history (choice : Nat → List GemColor → GemColor)
    (level : Level) (cid : Option String) (from_deck : Bool) (s : Game) :
    (s.execReserveCard choice level cid from_deck).2.history = s.history := by
  unfold Game.execReserveCard
  simp only []
  split
  · rfl
  · split
    · rfl
    · exact reserveTail_history choice s _ _

theorem checkNoblesVisit_rest (s : Game) :
    s.checkNoblesVisit.history = s.history ∧ s.checkNoblesVisit.game_over = s.game_over
      ∧ s.checkNoblesVisit.last_round = s.last_round
      ∧ s.checkNoblesVisit.last_player_index = s.last_player_index
      ∧ s.checkNoblesVisit.current_player_index = s.current_player_index
      ∧ s.checkNoblesVisit.num_players = s.num_players
      ∧ s.checkNoblesVisit.round_number = s.round_number
      ∧ s.checkNoblesVisit.winner = s.winner := by
  unfold Game.checkNoblesVisit
  simp only []
  split <;> exact ⟨rfl, rfl, rfl, rfl, rfl, rfl, rfl, rfl⟩

theorem checkGameEnd_rest (s : Game) :
    s.checkGameEnd.history = s.history ∧ s.checkGameEnd.round_number = s.round_number := by
  unfold Game.checkGameEnd
  simp only []
  split <;> split <;> exact ⟨rfl, rfl⟩

theorem execBuyCard_history (level : Level) (cid : String) (s : Game) :
    (s.execBuyCard level cid).2.history = s.history := by
  unfold Game.execBuyCard
  simp only []
  split
  · rfl
  · split
    · rfl
    · rw [(checkGameEnd_rest _).1, (checkNoblesVisit_rest _).1]

theorem execBuyReserved_history (cid : String) (s : Game) :
    (s.execBuyReserved cid).2.history = s.history := by
  unfold Game.execBuyReserved
  simp only []
  split
  · rfl
  · split
    · rfl
    · rw [(checkGameEnd_rest _).1, (checkNoblesVisit_rest _).1]

theorem execTakeDifferent_cases (choice : Nat → List GemColor → GemColor)
    (colors : List GemColor) (s : Game) :
    s.execTakeDifferent choice colors = (false, s)
      ∨ (s.execTakeDifferent choice colors).1 = true := by
  unfold Game.execTakeDifferent
  simp only []
  split
  · exact Or.inl rfl
  · split
    · exact Or.inl rfl
    · split
      · exact Or.inl rfl
      · exact Or.inr rfl

theorem execTakeSame_cases (choice : Nat → List GemColor → GemColor)
    (color : GemColor) (s : Game) :
    s.execTakeSame choice color = (false, s) ∨ (s.execTakeSame choice color).1 = true := by
  unfold Game.execTakeSame
  simp only []
  split
  · exact Or.inl rfl
  · split
    · exact Or.inl rfl
    · exact Or.inr rfl

theorem reserveTail_success (choice : Nat → List GemColor → GemColor) (s : Game)
    (card : Card) (b1 : Board) : (reserveTail choice s card b1).1 = true := by
  unfold reserveTail
  simp only []
  split <;> rfl

theorem execReserveCard_cases (choice : Nat → List GemColor → GemColor)
    (level : Level) (cid : Option String) (from_deck : Bool) (s : Game) :
    s.execReserveCard choice level cid from_deck = (false, s)
      ∨ (s.execReserveCard choice level cid from_deck).1 = true := by
  unfold Game.execReserveCard
  simp only []
  split
  · exact Or.inl rfl
  · split
    · exact Or.inl rfl
    · exact Or.inr (reserveTail_success choice s _ _)

theorem execBuyCard_cases (level : Level) (cid : String) (s : Game) :
    s.execBuyCard level cid = (false, s) ∨ (s.execBuyCard level cid).1 = true := by
  unfold Game.execBuyCard
  simp only []
  split
  · exact Or.inl rfl
  · split
    · exact Or.inl rfl
    · exact Or.inr rfl

theorem execBuyReserved_cases (cid : String) (s : Game) :
    s.execBuyReserved cid = (false, s) ∨ (s.execBuyReserved cid).1 = true := by
  unfold Game.execBuyReserved
  simp only []
  split
  · exact Or.inl rfl
  · split
    · exact Or.inl rfl
    · exact Or.inr rfl

/-- The history record appended by `execute_action` for a state `s` and
action `a`. -/
def historyRecordOf (s : Game) (a : Action) : HistoryEntry :=
  ⟨s.round_number, s.get_current_player.player_id, a.describe, a.to_dict⟩

theorem execute_action_history (choice : Nat → List GemColor → GemColor)
    (a : Action) (s : Game) :
    (s.execute_action choice a).2.history = s.history ++ [historyRecordOf s a] := by
  unfold Game.execute_action
  simp only []
  cases a with
  | take_different_gems colors => exact execTakeDifferent_history choice colors _
  | take_same_gems c => exact execTakeSame_history choice c _
  | reserve_card level cid fd => exact execReserveCard_history choice level cid fd _
  | buy_card level cid => exact execBuyCard_history level cid _
  | buy_reserved_card cid => exact execBuyReserved_history cid _

theorem execTakeDifferent_failure (choice : Nat → List GemColor → GemColor)
    (colors : List GemColor) (s : Game)
    (h : (s.execTakeDifferent choice colors).1 = false) :
    (s.execTakeDifferent choice colors).2.board = s.board
      ∧ (s.execTakeDifferent choice colors).2.players = s.players := by
  rcases execTakeDifferent_cases choice colors s with hc | hc
  · rw [hc]
    exact ⟨rfl, rfl⟩
  · rw [hc] at h
    exact absurd h (by simp)

theorem execTakeSame_failure (choice : Nat → List GemColor → GemColor)
    (color : GemColor) (s : Game) (h : (s.execTakeSame choice color).1 = false) :
    (s.execTakeSame choice color).2.board = s.board
      ∧ (s.execTakeSame choice color).2.players = s.players := by
  rcases execTakeSame_cases choice color s with hc | hc
  · rw [hc]
    exact ⟨rfl, rfl⟩
  · rw [hc] at h
    exact absurd h (by simp)

theorem execReserveCard_failure (choice : Nat → List GemColor → GemColor)
    (level : Level) (cid : Option String) (from_deck : Bool) (s : Game)
    (h : (s.execReserveCard choice level cid from_deck).1 = false) :
    (s.execReserveCard choice level cid from_deck).2.board = s.board
      ∧ (s.execReserveCard choice level cid from_deck).2.players = s.players := by
  rcases execReserveCard_cases choice level cid from_deck s with hc | hc
  · rw [hc]
    exact ⟨rfl, rfl⟩
  · rw [hc] at h
    exact absurd h (by simp)

theorem execBuyCard_failure (level : Level) (cid : String) (s : Game)
    (h : (s.execBuyCard level cid).1 = false) :
    (s.execBuyCard level cid).2.board = s.board
      ∧ (s.execBuyCard level cid).2.players = s.players := by
  rcases execBuyCard_cases level cid s with hc | hc
  · rw [hc]
    exact ⟨rfl, rfl⟩
  · rw [hc] at h
    exact absurd h (by simp)

theorem execBuyReserved_failure (cid : String) (s : Game)
    (h : (s.execBuyReserved cid).1 = false) :
    (s.execBuyReserved cid).2.board = s.board
      ∧ (s.execBuyReserved cid).2.players = s.players := by
  rcases execBuyReserved_cases cid s with hc | hc
  · rw [hc]
    exact ⟨rfl, rfl⟩
  · rw [hc] at h
    exact absurd h (by simp)

theorem execute_action_failure (choice : Nat → List GemColor → GemColor)
    (a : Action) (s : Game) (h : (s.execute_action choice a).1 = false) :
    (s.execute_action choice a).2.board = s.board
      ∧ (s.execute_action choice a).2.players = s.players := by
  cases a with
  | take_different_gems colors =>
    have heq : s.execute_action choice (.take_different_gems colors)
        = ({ s with history := s.history
            ++ [historyRecordOf s (.take_different_gems colors)] }).execTakeDifferent
          choice colors := rfl
    rw [heq] at h ⊢
    obtain ⟨h1, h2⟩ := execTakeDifferent_failure choice colors _ h
    exact ⟨h1, h2⟩
  | take_same_gems c =>
    have heq : s.execute_action choice (.take_same_gems c)
        = ({ s with history := s.history
            ++ [historyRecordOf s (.take_same_gems c)] }).execTakeSame choice c := rfl
    rw [heq] at h ⊢
    obtain ⟨h1, h2⟩ := execTakeSame_failure choice c _ h
    exact ⟨h1, h2⟩
  | reserve_card level cid fd =>
    have heq : s.execute_action choice (.reserve_card level cid fd)
        = ({ s with history := s.history
            ++ [historyRecordOf s (.reserve_card level cid fd)] }).execReserveCard
          choice level cid fd := rfl
    rw [heq] at h ⊢
    obtain ⟨h1, h2⟩ := execReserveCard_failure choice level cid fd _ h
    exact ⟨h1, h2⟩
  | buy_card level cid =>
    have heq : s.execute_action choice (.buy_card level cid)
        = ({ s with history := s.history
            ++ [historyRecordOf s (.buy_card level cid)] }).execBuyCard level cid := rfl
    rw [heq] at h ⊢
    obtain ⟨h1, h2⟩ := execBuyCard_failure level cid _ h
    exact ⟨h1, h2⟩
  | buy_reserved_card cid =>
    have heq : s.execute_action choice (.buy_reserved_card cid)
        = ({ s with history := s.history
            ++ [historyRecordOf s (.buy_reserved_card cid)] }).execBuyReserved cid := rfl
    rw [heq] at h ⊢
    obtain ⟨h1, h2⟩ := execBuyReserved_failure cid _ h
    exact ⟨h1, h2⟩

/-! ### Endgame-flag behaviour -/

theorem execTakeDifferent_flags (choice : Nat → List GemColor → GemColor)
    (colors : List GemColor) (s : Game) :
    (s.execTakeDifferent choice colors).2.game_over = s.game_over
      ∧ (s.execTakeDifferent choice colors).2.last_round = s.last_round
      ∧ (s.execTakeDifferent choice colors).2.last_player_index = s.last_player_index := by
  unfold Game.execTakeDifferent
  simp only []
  split
  · exact ⟨rfl, rfl, rfl⟩
  · split
    · exact ⟨rfl, rfl, rfl⟩
    · split <;> exact ⟨rfl, rfl, rfl⟩

theorem execTakeSame_flags (choice : Nat → List GemColor → GemColor)
    (color : GemColor) (s : Game) :
    (s.execTakeSame choice color).2.game_over = s.game_over
      ∧ (s.execTakeSame choice color).2.last_round = s.last_round
      ∧ (s.execTakeSame choice color).2.last_player_index = s.last_player_index := by
  unfold Game.execTakeSame
  simp only []
  split
  · exact ⟨rfl, rfl, rfl⟩
  · split <;> exact ⟨rfl, rfl, rfl⟩

theorem reserveTail_flags (choice : Nat → List GemColor → GemColor) (s : Game)
    (card : Card) (b1 : Board) :
    (reserveTail choice s card b1).2.game_over = s.game_over
      ∧ (reserveTail choice s card b1).2.last_round = s.last_round
      ∧ (reserveTail choice s card b1).2.last_player_index = s.last_player_index := by
  unfold reserveTail
  simp only []
  split <;> exact ⟨rfl, rfl, rfl⟩

theorem execReserveCard_flags (choice : Nat → List GemColor → GemColor)
    (level : Level) (cid : Option String) (from_deck : Bool) (s : Game) :
    (s.execReserveCard choice level cid from_deck).2.game_over = s.game_over
      ∧ (s.execReserveCard choice level cid from_deck).2.last_round = s.last_round
      ∧ (s.execReserveCard choice level cid from_deck).2.last_player_index
        = s.last_player_index := by
  unfold Game.execReserveCard
  simp only []
  split
  · exact ⟨rfl, rfl, rfl⟩
  · split
    · exact ⟨rfl, rfl, rfl⟩
    · exact reserveTail_flags choice _ _ _

/-- The exact flag update performed by `_check_game_end`. -/
theorem checkGameEnd_spec (s : Game) :
    s.checkGameEnd.last_round = (s.last_round || anyFifteen s)
      ∧ s.checkGameEnd.last_player_index
        = (if (!s.last_round && anyFifteen s) = true then some s.current_player_index
           else s.last_player_index)
      ∧ s.checkGameEnd.game_over
        = (s.game_over || ((s.last_round || anyFifteen s)
            && (some ((s.current_player_index + 1) % s.num_players)
              == (if (!s.last_round && anyFifteen s) = true then some s.current_player_index
                  else s.last_player_index))))
      ∧ (s.game_over = false → s.checkGameEnd.game_over = true →
          s.checkGameEnd.winner = some (determineWinner s.players)) := by
  unfold Game.checkGameEnd
  simp only []
  by_cases htrig : (!s.last_round && anyFifteen s) = true
  · rw [if_pos htrig]
    split
    · next hcond =>
      refine ⟨rfl, rfl, ?_, fun _ _ => rfl⟩
      show true = _
      rw [hcond]
      simp
    · next hcond =>
      rw [Bool.not_eq_true] at hcond
      refine ⟨rfl, rfl, ?_, ?_⟩
      · show s.game_over = _
        rw [hcond]
        simp
      · intro hgo hgo'
        have h2 : s.game_over = true := hgo'
        rw [hgo] at h2
        exact absurd h2 (by simp)
  · rw [if_neg htrig]
    split
    · next hcond =>
      refine ⟨rfl, rfl, ?_, fun _ _ => rfl⟩
      show true = _
      rw [hcond]
      simp
    · next hcond =>
      rw [Bool.not_eq_true] at hcond
      refine ⟨rfl, rfl, ?_, ?_⟩
      · show s.game_over = _
        rw [hcond]
        simp
      · intro hgo hgo'
        have h2 : s.game_over = true := hgo'
        rw [hgo] at h2
        exact absurd h2 (by simp)

theorem anyFifteen_congr (s1 s2 : Game) (h : s1.players = s2.players) :
    anyFifteen s1 = anyFifteen s2 := by
  unfold anyFifteen
  rw [h]

/-- Flag behaviour of the tail every successful purchase runs: the noble
check followed by the endgame check. -/
theorem buy_tail_flags (s s1 : Game)
    (h1 : s1.last_round = s.last_round) (h2 : s1.game_over = s.game_over)
    (h3 : s1.last_player_index = s.last_player_index)
    (h4 : s1.current_player_index = s.current_player_index)
    (h5 : s1.num_players = s.num_players) :
    s1.checkNoblesVisit.checkGameEnd.last_round
        = (s.last_round || anyFifteen s1.checkNoblesVisit.checkGameEnd)
      ∧ s1.checkNoblesVisit.checkGameEnd.last_player_index
        = (if (!s.last_round && anyFifteen s1.checkNoblesVisit.checkGameEnd) = true
           then some s.current_player_index else s.last_player_index)
      ∧ s1.checkNoblesVisit.checkGameEnd.game_over
        = (s.game_over || (s1.checkNoblesVisit.checkGameEnd.last_round
            && (some ((s.current_player_index + 1) % s.num_players)
              == s1.checkNoblesVisit.checkGameEnd.last_player_index)))
      ∧ (s.game_over = false → s1.checkNoblesVisit.checkGameEnd.game_over = true →
          s1.checkNoblesVisit.checkGameEnd.winner
            = some (determineWinner s1.checkNoblesVisit.checkGameEnd.players)) := by
  obtain ⟨_, hsg, hslr, hslpi, hsidx, hsnum, _, _⟩ := checkNoblesVisit_rest s1
  obtain ⟨e1, e2, e3, e4⟩ := checkGameEnd_spec s1.checkNoblesVisit
  obtain ⟨g1, _, _, _⟩ := checkGameEnd_fields s1.checkNoblesVisit
  have hany : anyFifteen s1.checkNoblesVisit = anyFifteen s1.checkNoblesVisit.checkGameEnd :=
    anyFifteen_congr _ _ g1.symm
  refine ⟨?_, ?_, ?_, ?_⟩
  · rw [e1, hslr, h1, hany]
  · rw [e2, hslr, h1, hany, hsidx, h4, hslpi, h3]
  · rw [e3, e1, e2, hsg, h2, hsidx, h4, hsnum, h5, hslpi, h3]
  · intro hgo hgo'
    rw [hsg, h2] at e4
    have := e4 hgo hgo'
    rw [this, g1]

/-- Flag behaviour of a successful display purchase. -/
theorem execBuyCard_flags (level : Level) (cid : String) (s : Game)
    (h : (s.execBuyCard level cid).1 = true) :
    (s.execBuyCard level cid).2.last_round
        = (s.last_round || anyFifteen (s.execBuyCard level cid).2)
      ∧ (s.execBuyCard level cid).2.last_player_index
        = (if (!s.last_round && anyFifteen (s.execBuyCard level cid).2) = true
           then some s.current_player_index else s.last_player_index)
      ∧ (s.execBuyCard level cid).2.game_over
        = (s.game_over || ((s.execBuyCard level cid).2.last_round
            && (some ((s.current_player_index + 1) % s.num_players)
              == (s.execBuyCard level cid).2.last_player_index)))
      ∧ (s.game_over = false → (s.execBuyCard level cid).2.game_over = true →
          (s.execBuyCard level cid).2.winner
            = some (determineWinner (s.execBuyCard level cid).2.players)) := by
  revert h
  unfold Game.execBuyCard
  simp only []
  split
  · intro h; simp at h
  · split
    · intro h; simp at h
    · intro _
      exact buy_tail_flags s _ rfl rfl rfl rfl rfl

/-- Flag behaviour of a successful reserved-card purchase. -/
theorem execBuyReserved_flags (cid : String) (s : Game)
    (h : (s.execBuyReserved cid).1 = true) :
    (s.execBuyReserved cid).2.last_round
        = (s.last_round || anyFifteen (s.execBuyReserved cid).2)
      ∧ (s.execBuyReserved cid).2.last_player_index
        = (if (!s.last_round && anyFifteen (s.execBuyReserved cid).2) = true
           then some s.current_player_index else s.last_player_index)
      ∧ (s.execBuyReserved cid).2.game_over
        = (s.game_over || ((s.execBuyReserved cid).2.last_round
            && (some ((s.current_player_index + 1) % s.num_players)
              == (s.execBuyReserved cid).2.last_player_index)))
      ∧ (s.game_over = false → (s.execBuyReserved cid).2.game_over = true →
          (s.execBuyReserved cid).2.winner
            = some (determineWinner (s.execBuyReserved cid).2.players)) := by
  revert h
  unfold Game.execBuyReserved
  simp only []
  split
  · intro h; simp at h
  · split
    · intro h; simp at h
    · intro _
      exact buy_tail_flags s _ rfl rfl rfl rfl rfl

/-! ### Take-gem action generation and validation -/

theorem combos_len3 (l : List GemColor) (h : l.length = 3) : combos 3 l = [l] := by
  match l with
  | [a, b, c] => rfl

theorem combos_ne_nil : ∀ (n : Nat) (l : List GemColor), n ≤ l.length → combos n l ≠ [] := by
  intro n l
  induction l generalizing n with
  | nil =>
    intro h
    have hn : n = 0 := by simpa using h
    subst hn
    simp [combos]
  | cons x xs ih =>
    intro h
    cases n with
    | zero => simp [combos]
    | succ k =>
      simp only [combos]
      by_cases hk : k + 1 ≤ xs.length
      · have := ih (k + 1) hk
        intro hnil
        rw [List.append_eq_nil] at hnil
        exact this hnil.2
      · have hkx : k ≤ xs.length := by
          simp at h
          omega
        have := ih k hkx
        intro hnil
        rw [List.append_eq_nil, List.map_eq_nil_iff] at hnil
        exact this hnil.1

theorem diffActions_le3 (s : Game) (h : (availableColors s.board).length ≤ 3) :
    s.getDifferentGemsActions = [Action.take_different_gems (availableColors s.board)] := by
  unfold Game.getDifferentGemsActions
  simp only []
  rw [if_pos h]

theorem diffActions_ge3 (s : Game) (h : 3 ≤ (availableColors s.board).length) :
    s.getDifferentGemsActions
      = (combos 3 (availableColors s.board)).map Action.take_different_gems := by
  unfold Game.getDifferentGemsActions
  simp only []
  by_cases h3 : (availableColors s.board).length ≤ 3
  · rw [if_pos h3, combos_len3 _ (le_antisymm h3 h)]
    rfl
  · rw [if_neg h3]

theorem diffActions_ne_nil (s : Game) : s.getDifferentGemsActions ≠ [] := by
  unfold Game.getDifferentGemsActions
  simp only []
  split
  · simp
  · next h =>
    have h3 : 3 ≤ (availableColors s.board).length := by omega
    intro hnil
    rw [List.map_eq_nil_iff] at hnil
    exact combos_ne_nil 3 _ h3 hnil

/-- `get_valid_actions` never returns an empty list: the take-different
generator always contributes at least one action (possibly the degenerate
empty-colors one). -/
theorem valid_actions_ne_nil (s : Game) : s.get_valid_actions ≠ [] := by
  unfold Game.get_valid_actions
  simp only []
  intro h
  rw [List.append_eq_nil, List.append_eq_nil, List.append_eq_nil, List.append_eq_nil] at h
  exact diffActions_ne_nil s h.1.1.1.1

/-- Executing the degenerate empty-colors take action always fails without
mutating the board or the players. -/
theorem exec_empty_take (choice : Nat → List GemColor → GemColor) (s : Game) :
    (s.execute_action choice (.take_different_gems [])).1 = false
      ∧ (s.execute_action choice (.take_different_gems [])).2.board = s.board
      ∧ (s.execute_action choice (.take_different_gems [])).2.players = s.players := by
  have heq : s.execute_action choice (.take_different_gems [])
      = (false, { s with history := s.history
          ++ [historyRecordOf s (.take_different_gems [])] }) := rfl
  rw [heq]
  exact ⟨rfl, rfl, rfl⟩

theorem take_gems_of_all (b : Board) (req : List (GemColor × Int))
    (h : req.all (fun pr => pr.2 ≤ b.gems.get pr.1) = true) :
    b.take_gems req
      = (true, { b with gems := req.foldl (fun g pr => g.set pr.1 (g.get pr.1 - pr.2)) b.gems }) := by
  unfold Board.take_gems
  rw [if_pos h]

/-- The validation `_execute_take_different_gems` actually performs: it fails
exactly on an empty or over-long color list or a listed color with an empty
pool — Gold membership and duplicates are not rejected. -/
theorem execTakeDifferent_fail_iff (choice : Nat → List GemColor → GemColor)
    (colors : List GemColor) (s : Game) :
    ((s.execTakeDifferent choice colors).1 = false
      ↔ (colors = [] ∨ 3 < colors.length ∨ ∃ c ∈ colors, s.board.gems.get c ≤ 0)) := by
  unfold Game.execTakeDifferent
  simp only []
  split
  · next hcase =>
    simp only [eq_self_iff_true, true_iff]
    rcases hcase with hc | hc
    · exact Or.inl hc
    · exact Or.inr (Or.inl hc)
  · next hcase =>
    push_neg at hcase
    split
    · next hany =>
      simp only [eq_self_iff_true, true_iff]
      rw [List.any_eq_true] at hany
      obtain ⟨c, hc, hcle⟩ := hany
      exact Or.inr (Or.inr ⟨c, hc, by simpa using hcle⟩)
    · next hany =>
      have hnoneg : ∀ c ∈ colors, 0 < s.board.gems.get c := by
        intro c hc
        by_contra hle
        push_neg at hle
        exact hany (List.any_eq_true.mpr ⟨c, hc, by simpa using hle⟩)
      have hall : ((dedupColors colors).map (fun c => (c, (1 : Int)))).all
          (fun pr => pr.2 ≤ s.board.gems.get pr.1) = true := by
        rw [List.all_eq_true]
        intro pr hpr
        obtain ⟨c, hc, hprc⟩ := List.mem_map.mp hpr
        rw [← hprc]
        have := hnoneg c ((dedup_mem colors c).mp hc)
        simpa using this
      rw [take_gems_of_all _ _ hall]
      simp only []
      constructor
      · intro hfalse
        simp at hfalse
      · intro hcases
        rcases hcases with hc | hc | ⟨c, hc, hcle⟩
        · exact absurd hc hcase.1
        · omega
        · exact absurd (hnoneg c hc) (by omega)

/-! ### `remove_displayed_card` characterization -/

theorem removeFirstById_of_decomp : ∀ (l1 : List Card) (c : Card) (l2 : List Card)
    (cid : String), c.card_id = cid → (∀ x ∈ l1, x.card_id ≠ cid) →
    removeFirstById (l1 ++ c :: l2) cid = some (c, l1 ++ l2) := by
  intro l1
  induction l1 with
  | nil =>
    intro c l2 cid hc _
    simp [removeFirstById, hc]
  | cons a rest ih =>
    intro c l2 cid hc hl1
    have ha : a.card_id ≠ cid := hl1 a (List.mem_cons_self _ _)
    simp only [List.cons_append, removeFirstById, if_neg ha]
    show (match removeFirstById (rest ++ c :: l2) cid with
      | none => none
      | some (r, rest') => some (r, a :: rest')) = some (c, a :: (rest ++ l2))
    rw [ih c l2 cid hc (fun x hx => hl1 x (List.mem_cons_of_mem _ hx))]

theorem remove_displayed_none (b : Board) (level : Level) (cid : String)
    (h : ∀ c ∈ b.displayed_cards.get level, c.card_id ≠ cid) :
    b.remove_displayed_card level cid = (none, b) := by
  unfold Board.remove_displayed_card
  rw [(removeFirstById_none _ _).mpr h]

theorem remove_displayed_some (b : Board) (level : Level) (cid : String)
    (c : Card) (l1 l2 : List Card)
    (hd : b.displayed_cards.get level = l1 ++ c :: l2)
    (hc : c.card_id = cid) (hl1 : ∀ x ∈ l1, x.card_id ≠ cid) :
    b.remove_displayed_card level cid
      = (some c, ({ b with displayed_cards := b.displayed_cards.set level (l1 ++ l2) } :
          Board).replenish_displayed_cards) := by
  unfold Board.remove_displayed_card
  rw [hd, removeFirstById_of_decomp l1 c l2 cid hc hl1]

/-! ### The discard loop's effect on the token total -/

/-- `_check_and_discard_gems` leaves the player at exactly 10 tokens when the
holding exceeds the cap, and untouched otherwise. -/
theorem checkAndDiscard_sum (choice : Nat → List GemColor → GemColor) (pg bg : Gems) :
    sumGems (checkAndDiscard choice pg bg).1
      = if 10 < sumGems pg then 10 else sumGems pg := by
  unfold checkAndDiscard
  rw [discardAux_sum choice _ 0 pg bg rfl]
  by_cases h : 10 < sumGems pg
  · rw [if_pos (by omega), if_pos h]
  · rw [if_neg (by omega), if_neg h]

theorem getD_set_self : ∀ (l : List Player) (i : Nat) (p' : Player), i < l.length →
    (l.set i p').getD i dummyPlayer = p' := by
  intro l
  induction l with
  | nil => intro i p' h; simp at h
  | cons a rest ih =>
    intro i p' h
    cases i with
    | zero => rfl
    | succ n =>
      show (rest.set n p').getD n dummyPlayer = p'
      exact ih n p' (by simpa using h)

/-- Taking two of a color from a 9-token holding succeeds whenever the pool
has at least four of that color, and lands the player on exactly 10 tokens:
the pool-side cap admits the take and the discard loop does not fire below
11. -/
theorem execTakeSame_nine (choice : Nat → List GemColor → GemColor) (c : GemColor)
    (s : Game) (hidx : s.current_player_index < s.players.length)
    (h9 : sumGems s.get_current_player.gems = 9)
    (h4 : 4 ≤ s.board.gems.get c) :
    (s.execTakeSame choice c).1 = true
      ∧ ((s.execTakeSame choice c).2.players.getD s.current_player_index
          dummyPlayer).get_total_gems = 10 := by
  unfold Game.execTakeSame
  simp only []
  rw [if_neg (by omega)]
  rw [take_gems_of_all s.board [(c, 2)] (by simp; omega)]
  simp only []
  refine ⟨trivial, ?_⟩
  have hgd : ∀ (p' : Player), (s.players.set s.current_player_index p').getD
      s.current_player_index dummyPlayer = p' :=
    fun p' => getD_set_self _ _ _ hidx
  rw [hgd]
  unfold Player.get_total_gems
  simp only []
  rw [checkAndDiscard_sum choice]
  have hpg : sumGems (s.get_current_player.gems.set c
      (s.get_current_player.gems.get c + 2)) = 11 := by
    rw [sumGems_set]
    omega
  rw [hpg]
  norm_num

/-! ### Concrete states used to exercise the development -/

/-- A concrete discard oracle (the runs below never reach a discard). -/
def ch0 : Nat → List GemColor → GemColor := fun _ _ => .white

/-- The catalog cards of one level, in catalog order. -/
def lvlCards (n : Nat) : List Card := createStandardCards.filter (fun c => c.level = n)

/-- A two-player game initialised with the catalog-order deck permutations. -/
def baseGame : Game :=
  initGame [("p0", "P0"), ("p1", "P1")] (lvlCards 1) (lvlCards 2) (lvlCards 3)
    createStandardNobles

def pickIds (ids : List String) (l : List Card) : List Card :=
  ids.filterMap (fun i => l.find? (fun c => c.card_id = i))

def tailIds1 : List String := ["L1_K4", "L1_R4", "L1_G4", "L1_B4", "L1_W4"]

def tailIds2 : List String := ["L2_K3", "L2_R3", "L2_G3", "L2_B3", "L2_W3"]

/-- A level-1 deck permutation whose last five cards (the dealt display) are
the single-color-cost point cards `L1_W4 … L1_K4`. -/
def d1cex : List Card :=
  (lvlCards 1).filter (fun c => ¬ tailIds1.contains c.card_id)
    ++ pickIds tailIds1 (lvlCards 1)

/-- A level-2 deck permutation dealing `L2_W3 … L2_K3` onto the display. -/
def d2cex : List Card :=
  (lvlCards 2).filter (fun c => ¬ tailIds2.contains c.card_id)
    ++ pickIds tailIds2 (lvlCards 2)

/-- The scripted two-player game: seat 1 plays out ten purchases. -/
def cexG0 : Game :=
  initGame [("p0", "P0"), ("p1", "P1")] d1cex d2cex (lvlCards 3) createStandardNobles

/-- Gather four tokens of one color, then buy: the three no-op-free steps a
4-cost purchase needs. -/
def act4 (c : GemColor) (l : Level) (cid : String) : List Action :=
  [.take_same_gems c, .take_different_gems [c], .take_different_gems [c],
   .buy_card l cid]

/-- Gather three tokens (enough once discounts cover the rest), then buy. -/
def act3 (c : GemColor) (l : Level) (cid : String) : List Action :=
  [.take_same_gems c, .take_different_gems [c], .buy_card l cid]

/-- Ten purchases for seat 1: five 1-point level-1 cards and five 2-point
level-2 cards, reaching 15 points on the last buy. -/
def cexScript : List Action :=
  act4 .blue .one "L1_W4" ++ act4 .red .one "L1_B4" ++ act4 .black .one "L1_G4"
    ++ act3 .white .one "L1_R4" ++ act3 .green .one "L1_K4"
    ++ act4 .blue .two "L2_W3" ++ act3 .white .two "L2_B3" ++ act3 .blue .two "L2_G3"
    ++ act4 .black .two "L2_R3" ++ act3 .red .two "L2_K3"

/-- Iterate `execute_action` over a script, keeping only the state. -/
def runActions (choice : Nat → List GemColor → GemColor) (acts : List Action)
    (s : Game) : Game :=
  acts.foldl (fun st a => (st.execute_action choice a).2) s

/-- The scripted game just before the 15th point is bought. -/
def cexPre : Game := runActions ch0 (cexScript.take 34) cexG0.next_player

/-- The scripted game right after seat 1 buys its 15th point. -/
def cexG1 : Game := (cexPre.execute_action ch0 (Action.buy_card .two "L2_K3")).2

/-- The same game after the turn passes to seat 0 — the seat immediately
before the recorded trigger seat. -/
def cexG2 : Game := cexG1.next_player

/-- A player holding two Gold tokens and nothing else. -/
def cexPlayer : Player := ⟨"px", "PX", ⟨0, 0, 0, 0, 0, 2⟩, [], [], []⟩

/-- The catalog card `L1_W1` (cost one each of blue, green, red, black). -/
def cardL1W1 : Card :=
  ⟨1, 0, .white, [(.blue, 1), (.green, 1), (.red, 1), (.black, 1)], "L1_W1"⟩

/-- A fully exhausted board: no tokens, no cards, no nobles. -/
def degBoard : Board := ⟨zeroGems, ⟨[], [], []⟩, ⟨[], [], []⟩, []⟩

/-- A state on the exhausted board where no real action is available. -/
def degGame : Game :=
  ⟨[mkPlayer "a" "A"], 1, degBoard, 0, 1, false, none, false, none, []⟩

def nineBoard : Board := ⟨⟨4, 4, 4, 4, 4, 5⟩, ⟨[], [], []⟩, ⟨[], [], []⟩, []⟩

/-- A state whose current player holds exactly nine tokens, with full pools. -/
def nineGame : Game :=
  ⟨[⟨"p", "P", ⟨2, 2, 2, 2, 1, 0⟩, [], [], []⟩], 1, nineBoard, 0, 1, false,
    none, false, none, []⟩

/-- A one-player state sitting on the end-of-round boundary of its last
round. -/
def endGame : Game :=
  ⟨[mkPlayer "w" "W"], 1, degBoard, 0, 1, false, none, true, some 0, []⟩

/-! ### Helper lemmas for the card-partition claim -/

theorem sum_map_add_nat (l : List Player) (f g : Player → Nat) :
    (l.map (fun p => f p + g p)).sum = (l.map f).sum + (l.map g).sum := by
  induction l with
  | nil => rfl
  | cons a rest ih =>
    simp only [List.map_cons, List.sum_cons, ih]
    omega

theorem levelNat_inj : ∀ (l l' : Level), levelNat l = levelNat l' → l = l' := by
  intro l l' h
  cases l <;> cases l' <;> first | rfl | (exact absurd h (by decide))

/-! ## The claims -/

/-- Claim C2 (code bug): `get_actual_cost` is specified never to produce a
payment exceeding the held tokens, Gold included.  But for a player holding
two Gold and nothing else, the catalog card `L1_W1` (cost 1 blue, 1 green,
1 red, 1 black) is priced at four Gold — the per-color loop re-reads the
full Gold holding for every unmet color instead of the unspent remainder —
even though the player holds only two Gold and `can_afford_card` itself says
the card is unaffordable.  All holdings are non-negative, so the overdraw is
not an artifact of a malformed player. -/
theorem c2_actual_cost_gold_overdraw :
    cardL1W1 ∈ createStandardCards
      ∧ (∀ c, 0 ≤ cexPlayer.gems.get c)
      ∧ cexPlayer.gems.get .gold = 2
      ∧ (cexPlayer.get_actual_cost cardL1W1).get .gold = 4
      ∧ cexPlayer.can_afford_card cardL1W1 = false := by
  refine ⟨by decide, by intro c; cases c <;> decide, rfl, rfl, rfl⟩

/-- Claim C3: in every reachable state (over all shuffle outcomes, all action
sequences and all discard oracles), each color's board pool plus the players'
holdings of that color equals the fixed initial supply for the player
count. -/
theorem c3_token_conservation (s : Game) (h : Reachable s) (c : GemColor) :
    s.board.gems.get c + playerGemSum s c = (initGems s.num_players).get c :=
  (reachable_inv s h).hcons c

theorem c3_token_conservation_witness :
    baseGame.board.gems.get .white + playerGemSum baseGame .white
      = (initGems baseGame.num_players).get .white :=
  c3_token_conservation baseGame
    (Reachable.init [("p0", "P0"), ("p1", "P1")] (lvlCards 1) (lvlCards 2) (lvlCards 3)
      createStandardNobles (by simp) (List.Perm.refl _) (List.Perm.refl _)
      (List.Perm.refl _) (List.Perm.refl _)) .white

/-- Claim C4: in every reachable state each catalog card occurs exactly once
across its own level's deck, its level's display, the players' reserved lists
and the players' owned lists, and never occurs in any other level's deck or
display. -/
theorem c4_card_partition (s : Game) (h : Reachable s) (cd : Card)
    (hcd : cd ∈ createStandardCards) :
    ((s.board.card_decks.get (natLevel cd.level)).count cd
        + (s.board.displayed_cards.get (natLevel cd.level)).count cd
        + (s.players.map (fun p => p.reserved_cards.count cd)).sum
        + (s.players.map (fun p => p.cards.count cd)).sum = 1)
      ∧ (∀ l : Level, l ≠ natLevel cd.level →
          (s.board.card_decks.get l).count cd = 0
            ∧ (s.board.displayed_cards.get l).count cd = 0) := by
  have hinv := reachable_inv s h
  have hcat1 : createStandardCards.count cd = 1 := by
    have h1 := List.nodup_iff_count_le_one.mp catalog_nodup cd
    have h2 := List.count_pos_iff.mpr hcd
    omega
  have hc := hinv.hcards cd
  rw [hcat1] at hc
  have hlv : levelNat (natLevel cd.level) = cd.level := by
    rcases catalog_levels cd hcd with h1 | h1 | h1 <;> rw [h1] <;> rfl
  have hzero : ∀ l : Level, l ≠ natLevel cd.level →
      (s.board.card_decks.get l).count cd = 0
        ∧ (s.board.displayed_cards.get l).count cd = 0 := by
    intro l hl
    constructor
    · by_contra hcnt
      have hmem : cd ∈ s.board.card_decks.get l := List.count_pos_iff.mp (by omega)
      have hp := hinv.hpure l cd (Or.inl hmem)
      apply hl
      apply levelNat_inj
      rw [hlv]
      exact hp.symm
    · by_contra hcnt
      have hmem : cd ∈ s.board.displayed_cards.get l := List.count_pos_iff.mp (by omega)
      have hp := hinv.hpure l cd (Or.inr hmem)
      apply hl
      apply levelNat_inj
      rw [hlv]
      exact hp.symm
  refine ⟨?_, hzero⟩
  unfold gameCardCount boardCardCount at hc
  simp only [playerCardCount] at hc
  rw [sum_map_add_nat s.players (fun p => p.reserved_cards.count cd)
    (fun p => p.cards.count cd)] at hc
  cases hlv3 : natLevel cd.level with
  | one =>
    obtain ⟨hz1, hz2⟩ := hzero .two (by simp [hlv3])
    obtain ⟨hz3, hz4⟩ := hzero .three (by simp [hlv3])
    omega
  | two =>
    obtain ⟨hz1, hz2⟩ := hzero .one (by simp [hlv3])
    obtain ⟨hz3, hz4⟩ := hzero .three (by simp [hlv3])
    omega
  | three =>
    obtain ⟨hz1, hz2⟩ := hzero .one (by simp [hlv3])
    obtain ⟨hz3, hz4⟩ := hzero .two (by simp [hlv3])
    omega

theorem c4_card_partition_witness :
    (baseGame.board.card_decks.get (natLevel cardL1W1.level)).count cardL1W1
        + (baseGame.board.displayed_cards.get (natLevel cardL1W1.level)).count cardL1W1
        + (baseGame.players.map (fun p => p.reserved_cards.count cardL1W1)).sum
        + (baseGame.players.map (fun p => p.cards.count cardL1W1)).sum = 1 :=
  (c4_card_partition baseGame
    (Reachable.init [("p0", "P0"), ("p1", "P1")] (lvlCards 1) (lvlCards 2) (lvlCards 3)
      createStandardNobles (by simp) (List.Perm.refl _) (List.Perm.refl _)
      (List.Perm.refl _) (List.Perm.refl _)) cardL1W1 (by decide)).1

/-- Claim C5: `_determine_winner` returns exactly the players of maximum
score whose owned-card count is minimal among the maximum-score players —
sole winner on fewer cards, co-winners on equal score and equal card count —
and the endgame transition installs exactly this set as the winner. -/
theorem c5_winner_selection :
    (∀ (players : List Player), players ≠ [] →
      ∃ M m, (∀ p ∈ players, p.get_score ≤ M) ∧ (∃ p ∈ players, p.get_score = M)
        ∧ (∀ p ∈ players, p.get_score = M → m ≤ p.cards.length)
        ∧ (∃ p ∈ players, p.get_score = M ∧ p.cards.length = m)
        ∧ determineWinner players
            = players.filter (fun p => (p.get_score = M ∧ p.cards.length = m : Bool)))
      ∧ (∀ s : Game, s.game_over = false → s.checkGameEnd.game_over = true →
          s.checkGameEnd.winner = some (determineWinner s.players)) :=
  ⟨determineWinner_spec, fun s => (checkGameEnd_spec s).2.2.2⟩

theorem c5_winner_selection_witness :
    endGame.checkGameEnd.winner = some (determineWinner endGame.players) :=
  c5_winner_selection.2 endGame rfl rfl

/-- Counterexample to claim C6: on a fully exhausted board no color is
available and no other generator produces an action, yet `get_valid_actions`
is not empty — `_get_different_gems_actions` still emits the degenerate
empty-color take action (which fails when executed), so the documented
empty-list/skip situation never occurs. -/
theorem c6_counterexample :
    availableColors degGame.board = []
      ∧ degGame.getSameGemsActions = []
      ∧ degGame.getReserveCardActions degGame.get_current_player = []
      ∧ degGame.getBuyCardActions degGame.get_current_player = []
      ∧ Game.getBuyReservedCardActions degGame.get_current_player = []
      ∧ degGame.get_valid_actions = [Action.take_different_gems []]
      ∧ (degGame.execute_action ch0 (Action.take_different_gems [])).1 = false := by
  refine ⟨rfl, rfl, rfl, rfl, rfl, rfl, rfl⟩

/-- Claim C6 (amended): with at least three available colors the generator
emits one action per 3-combination; with at most three it emits a single
action taking every available color — including the degenerate empty one —
so the action list is never empty and the skip branch is dead; executing the
degenerate action fails without mutation. -/
theorem c6_action_generation :
    (∀ s : Game, 3 ≤ (availableColors s.board).length →
       s.getDifferentGemsActions
         = (combos 3 (availableColors s.board)).map Action.take_different_gems)
      ∧ (∀ s : Game, (availableColors s.board).length ≤ 3 →
          s.getDifferentGemsActions
            = [Action.take_different_gems (availableColors s.board)])
      ∧ (∀ s : Game, s.get_valid_actions ≠ [])
      ∧ (∀ (choice : Nat → List GemColor → GemColor) (s : Game),
          (s.execute_action choice (Action.take_different_gems [])).1 = false
            ∧ (s.execute_action choice (Action.take_different_gems [])).2.board = s.board
            ∧ (s.execute_action choice (Action.take_different_gems [])).2.players
                = s.players) :=
  ⟨diffActions_ge3, diffActions_le3, valid_actions_ne_nil, exec_empty_take⟩

theorem c6_action_generation_witness :
    baseGame.getDifferentGemsActions
        = (combos 3 (availableColors baseGame.board)).map Action.take_different_gems
      ∧ degGame.getDifferentGemsActions
          = [Action.take_different_gems (availableColors degGame.board)]
      ∧ degGame.get_valid_actions ≠ [] :=
  ⟨c6_action_generation.1 baseGame (by decide),
   c6_action_generation.2.1 degGame (by decide),
   c6_action_generation.2.2.1 degGame⟩

/-- Counterexample to claim C7: on a fresh board, a take-different action
listing Gold succeeds and hands the player a Gold token, and one listing the
same color twice succeeds after silently collapsing the duplicate — neither
malformed parameter is rejected. -/
theorem c7_counterexample :
    (baseGame.execute_action ch0 (Action.take_different_gems [.gold])).1 = true
      ∧ ((baseGame.execute_action ch0 (Action.take_different_gems [.gold])).2.players.getD 0
          dummyPlayer).gems.get .gold = 1
      ∧ (baseGame.execute_action ch0
          (Action.take_different_gems [.gold])).2.board.gems.get .gold = 4
      ∧ (baseGame.execute_action ch0 (Action.take_different_gems [.red, .red])).1 = true
      ∧ ((baseGame.execute_action ch0
          (Action.take_different_gems [.red, .red])).2.players.getD 0
          dummyPlayer).gems.get .red = 1
      ∧ (baseGame.execute_action ch0
          (Action.take_different_gems [.red, .red])).2.board.gems.get .red = 3 := by
  refine ⟨rfl, rfl, rfl, rfl, rfl, rfl⟩

/-- Claim C7 (amended): a take-different action is rejected exactly when its
color list is empty, longer than three, or names a color with an empty pool —
Gold membership and duplicates pass validation — and every rejected action
leaves the board and the players unmutated. -/
theorem c7_take_different_validation (choice : Nat → List GemColor → GemColor)
    (colors : List GemColor) (s : Game) :
    ((s.execute_action choice (Action.take_different_gems colors)).1 = false
        ↔ (colors = [] ∨ 3 < colors.length ∨ ∃ c ∈ colors, s.board.gems.get c ≤ 0))
      ∧ ((s.execute_action choice (Action.take_different_gems colors)).1 = false →
          (s.execute_action choice (Action.take_different_gems colors)).2.board = s.board
            ∧ (s.execute_action choice (Action.take_different_gems colors)).2.players
                = s.players) := by
  constructor
  · have heq : s.execute_action choice (Action.take_different_gems colors)
        = ({ s with history := s.history
            ++ [historyRecordOf s (Action.take_different_gems colors)] }).execTakeDifferent
          choice colors := rfl
    rw [heq]
    exact execTakeDifferent_fail_iff choice colors _
  · exact fun hfail => execute_action_failure choice _ s hfail

theorem c7_take_different_validation_witness :
    (degGame.execute_action ch0 (Action.take_different_gems [GemColor.red])).1 = false
      ∧ (degGame.execute_action ch0 (Action.take_different_gems [GemColor.red])).2.board
          = degGame.board :=
  ⟨(c7_take_different_validation ch0 [GemColor.red] degGame).1.mpr
      (Or.inr (Or.inr ⟨GemColor.red, by decide, by decide⟩)),
   ((c7_take_different_validation ch0 [GemColor.red] degGame).2
      ((c7_take_different_validation ch0 [GemColor.red] degGame).1.mpr
        (Or.inr (Or.inr ⟨GemColor.red, by decide, by decide⟩)))).1⟩

/-- Claim C8: every `execute_action` call appends exactly one record — round
number, acting player id, action description, structured action data — to the
history, success or failure alike, and a failing call leaves the board and
every player unchanged.  Failure is reported only through the boolean result:
the embedding of the executors is total, so no run aborts. -/
theorem c8_history_and_failure_purity (choice : Nat → List GemColor → GemColor)
    (a : Action) (s : Game) :
    (s.execute_action choice a).2.history = s.history ++ [historyRecordOf s a]
      ∧ (historyRecordOf s a).round = s.round_number
      ∧ (historyRecordOf s a).player = s.get_current_player.player_id
      ∧ (historyRecordOf s a).action = a.describe
      ∧ (historyRecordOf s a).action_data = a.to_dict
      ∧ ((s.execute_action choice a).1 = false →
          (s.execute_action choice a).2.board = s.board
            ∧ (s.execute_action choice a).2.players = s.players) :=
  ⟨execute_action_history choice a s, rfl, rfl, rfl, rfl,
   execute_action_failure choice a s⟩

theorem c8_history_and_failure_purity_witness :
    (degGame.execute_action ch0 (Action.take_same_gems .red)).2.history
        = degGame.history ++ [historyRecordOf degGame (Action.take_same_gems .red)]
      ∧ (degGame.execute_action ch0 (Action.take_same_gems .red)).2.board
          = degGame.board :=
  ⟨(c8_history_and_failure_purity ch0 (Action.take_same_gems .red) degGame).1,
   ((c8_history_and_failure_purity ch0 (Action.take_same_gems .red) degGame).2.2.2.2.2
      rfl).1⟩

/-- Claim C9: in every reachable state every player holds at most ten tokens,
Gold included — the mandatory discard enforces the cap after every action —
and a current player holding exactly nine tokens who takes two same-color
tokens from a pool of at least four ends the action on exactly ten, the
forced discard removing exactly one. -/
theorem c9_token_cap :
    (∀ s : Game, Reachable s → ∀ p ∈ s.players, p.get_total_gems ≤ 10)
      ∧ (∀ (choice : Nat → List GemColor → GemColor) (c : GemColor) (t : Game),
          t.current_player_index < t.players.length →
          sumGems t.get_current_player.gems = 9 →
          4 ≤ t.board.gems.get c →
          (t.execute_action choice (Action.take_same_gems c)).1 = true
            ∧ ((t.execute_action choice (Action.take_same_gems c)).2.players.getD
                t.current_player_index dummyPlayer).get_total_gems = 10) := by
  constructor
  · exact fun s h => (reachable_inv s h).hten
  · intro choice c t hidx h9 h4
    have heq : t.execute_action choice (Action.take_same_gems c)
        = ({ t with history := t.history
            ++ [historyRecordOf t (Action.take_same_gems c)] }).execTakeSame choice c := rfl
    rw [heq]
    exact execTakeSame_nine choice c _ hidx h9 h4

theorem c9_token_cap_witness :
    (mkPlayer "p0" "P0").get_total_gems ≤ 10
      ∧ (nineGame.execute_action ch0 (Action.take_same_gems .red)).1 = true
      ∧ ((nineGame.execute_action ch0 (Action.take_same_gems .red)).2.players.getD 0
          dummyPlayer).get_total_gems = 10 :=
  ⟨c9_token_cap.1 baseGame
    (Reachable.init [("p0", "P0"), ("p1", "P1")] (lvlCards 1) (lvlCards 2) (lvlCards 3)
      createStandardNobles (by simp) (List.Perm.refl _) (List.Perm.refl _)
      (List.Perm.refl _) (List.Perm.refl _)) (mkPlayer "p0" "P0") (by decide),
   (c9_token_cap.2 ch0 .red nineGame (by decide) (by decide) (by decide)).1,
   (c9_token_cap.2 ch0 .red nineGame (by decide) (by decide) (by decide)).2⟩

/-- Claim C10: when no displayed card of the level carries the requested id,
`remove_displayed_card` returns `none` and the board — display slots and all
decks — is returned verbatim, with no replenishment; when one does, the first
such card is returned, exactly it is removed, and the display is then
replenished from that level's deck. -/
theorem c10_remove_displayed_card (b : Board) (level : Level) (cid : String) :
    ((∀ c ∈ b.displayed_cards.get level, c.card_id ≠ cid) →
        b.remove_displayed_card level cid = (none, b))
      ∧ (∀ (c : Card) (l1 l2 : List Card),
          b.displayed_cards.get level = l1 ++ c :: l2 → c.card_id = cid →
          (∀ x ∈ l1, x.card_id ≠ cid) →
          b.remove_displayed_card level cid
            = (some c,
                ({ b with displayed_cards := b.displayed_cards.set level (l1 ++ l2) } :
                  Board).replenish_displayed_cards)) :=
  ⟨remove_displayed_none b level cid,
   fun c l1 l2 hd hc hl1 => remove_displayed_some b level cid c l1 l2 hd hc hl1⟩

def cardL1K4 : Card := ⟨1, 1, .black, [(.green, 4)], "L1_K4"⟩

theorem c10_remove_displayed_card_witness :
    baseGame.board.remove_displayed_card Level.one "L1_Z9" = (none, baseGame.board)
      ∧ (baseGame.board.remove_displayed_card Level.one "L1_K4").1 = some cardL1K4 := by
  refine ⟨(c10_remove_displayed_card baseGame.board Level.one "L1_Z9").1 (by decide), ?_⟩
  rw [(c10_remove_displayed_card baseGame.board Level.one "L1_K4").2 cardL1K4 []
    (baseGame.board.displayed_cards.get Level.one).tail rfl rfl (by simp)]

/-- A state whose lone player can immediately buy its reserved `L1_W1`. -/
def rGame : Game :=
  ⟨[⟨"r", "R", ⟨0, 1, 1, 1, 1, 0⟩, [], [cardL1W1], []⟩], 1, nineBoard, 0, 1, false,
    none, false, none, []⟩

set_option maxRecDepth 10000 in
/-- Counterexample to claim C1: in the scripted two-player game, seat 1 buys
its way to 15 points (score 13 and no last-round flag just before), the
purchase records the trigger (`last_round` set, sentinel seat 1) — but when
seat 0, the seat immediately before the trigger seat, then completes its
final turn with a take-gems action, `game_over` stays `false`: only the two
buy executors run `_check_game_end`, so a take or reserve on the final turn
never ends the game. -/
theorem c1_counterexample :
    cexPre.last_round = false
      ∧ cexPre.game_over = false
      ∧ (cexPre.players.getD 1 dummyPlayer).get_score = 13
      ∧ (cexPre.execute_action ch0 (Action.buy_card .two "L2_K3")).1 = true
      ∧ cexG1.last_round = true
      ∧ cexG1.last_player_index = some 1
      ∧ (cexG1.players.getD 1 dummyPlayer).get_score = 15
      ∧ cexG1.game_over = false
      ∧ cexG1.num_players = 2
      ∧ cexG2.current_player_index = 0
      ∧ (cexG2.execute_action ch0 (Action.take_same_gems .white)).1 = true
      ∧ (cexG2.execute_action ch0 (Action.take_same_gems .white)).2.game_over = false
      ∧ (cexG2.execute_action ch0
          (Action.take_same_gems .white)).2.next_player.game_over = false := by
  refine ⟨rfl, rfl, rfl, rfl, rfl, rfl, rfl, rfl, rfl, rfl, rfl, rfl, rfl⟩

/-- Claim C1 (amended): the endgame check runs only inside the two purchase
executors.  Take-gems and reserve actions never change `game_over`,
`last_round` or `last_player_index`; a successful purchase triggers the last
round once any score reaches 15 and sets `game_over` exactly when the seat
one past the acting seat (mod player count) matches the recorded sentinel
seat. -/
theorem c1_endgame_flags :
    (∀ (choice : Nat → List GemColor → GemColor) (a : Action) (s : Game),
        (match a with
         | .buy_card _ _ => False
         | .buy_reserved_card _ => False
         | _ => True) →
        (s.execute_action choice a).2.game_over = s.game_over
          ∧ (s.execute_action choice a).2.last_round = s.last_round
          ∧ (s.execute_action choice a).2.last_player_index = s.last_player_index)
      ∧ (∀ (choice : Nat → List GemColor → GemColor) (level : Level) (cid : String)
          (s : Game), (s.execute_action choice (Action.buy_card level cid)).1 = true →
          (s.execute_action choice (Action.buy_card level cid)).2.last_round
              = (s.last_round
                || anyFifteen (s.execute_action choice (Action.buy_card level cid)).2)
            ∧ (s.execute_action choice (Action.buy_card level cid)).2.last_player_index
                = (if (!s.last_round
                      && anyFifteen (s.execute_action choice (Action.buy_card level cid)).2)
                      = true
                   then some s.current_player_index else s.last_player_index)
            ∧ (s.execute_action choice (Action.buy_card level cid)).2.game_over
                = (s.game_over
                  || ((s.execute_action choice (Action.buy_card level cid)).2.last_round
                    && (some ((s.current_player_index + 1) % s.num_players)
                      == (s.execute_action choice
                          (Action.buy_card level cid)).2.last_player_index))))
      ∧ (∀ (choice : Nat → List GemColor → GemColor) (cid : String) (s : Game),
          (s.execute_action choice (Action.buy_reserved_card cid)).1 = true →
          (s.execute_action choice (Action.buy_reserved_card cid)).2.last_round
              = (s.last_round
                || anyFifteen (s.execute_action choice (Action.buy_reserved_card cid)).2)
            ∧ (s.execute_action choice (Action.buy_reserved_card cid)).2.last_player_index
                = (if (!s.last_round
                      && anyFifteen (s.execute_action choice (Action.buy_reserved_card cid)).2)
                      = true
                   then some s.current_player_index else s.last_player_index)
            ∧ (s.execute_action choice (Action.buy_reserved_card cid)).2.game_over
                = (s.game_over
                  || ((s.execute_action choice (Action.buy_reserved_card cid)).2.last_round
                    && (some ((s.current_player_index + 1) % s.num_players)
                      == (s.execute_action choice
                          (Action.buy_reserved_card cid)).2.last_player_index)))) := by
  refine ⟨?_, ?_, ?_⟩
  · intro choice a s hguard
    cases a with
    | take_different_gems colors =>
      have heq : s.execute_action choice (.take_different_gems colors)
          = ({ s with history := s.history
              ++ [historyRecordOf s (.take_different_gems colors)] }).execTakeDifferent
            choice colors := rfl
      rw [heq]
      exact execTakeDifferent_flags choice colors _
    | take_same_gems c =>
      have heq : s.execute_action choice (.take_same_gems c)
          = ({ s with history := s.history
              ++ [historyRecordOf s (.take_same_gems c)] }).execTakeSame choice c := rfl
      rw [heq]
      exact execTakeSame_flags choice c _
    | reserve_card level cid fd =>
      have heq : s.execute_action choice (.reserve_card level cid fd)
          = ({ s with history := s.history
              ++ [historyRecordOf s (.reserve_card level cid fd)] }).execReserveCard
            choice level cid fd := rfl
      rw [heq]
      exact execReserveCard_flags choice level cid fd _
    | buy_card level cid => exact hguard.elim
    | buy_reserved_card cid => exact hguard.elim
  · intro choice level cid s hs
    have heq : s.execute_action choice (.buy_card level cid)
        = ({ s with history := s.history
            ++ [historyRecordOf s (.buy_card level cid)] }).execBuyCard level cid := rfl
    rw [heq] at hs ⊢
    obtain ⟨h1, h2, h3, _⟩ := execBuyCard_flags level cid _ hs
    exact ⟨h1, h2, h3⟩
  · intro choice cid s hs
    have heq : s.execute_action choice (.buy_reserved_card cid)
        = ({ s with history := s.history
            ++ [historyRecordOf s (.buy_reserved_card cid)] }).execBuyReserved cid := rfl
    rw [heq] at hs ⊢
    obtain ⟨h1, h2, h3, _⟩ := execBuyReserved_flags cid _ hs
    exact ⟨h1, h2, h3⟩

set_option maxRecDepth 10000 in
theorem c1_endgame_flags_witness :
    (baseGame.execute_action ch0 (Action.take_same_gems .white)).2.game_over
        = baseGame.game_over
      ∧ (cexPre.execute_action ch0 (Action.buy_card .two "L2_K3")).2.last_round
          = (cexPre.last_round
            || anyFifteen (cexPre.execute_action ch0 (Action.buy_card .two "L2_K3")).2)
      ∧ (rGame.execute_action ch0 (Action.buy_reserved_card "L1_W1")).2.last_round
          = (rGame.last_round
            || anyFifteen (rGame.execute_action ch0
                (Action.buy_reserved_card "L1_W1")).2) :=
  ⟨(c1_endgame_flags.1 ch0 (Action.take_same_gems .white) baseGame trivial).1,
   (c1_endgame_flags.2.1 ch0 Level.two "L2_K3" cexPre rfl).1,
   (c1_endgame_flags.2.2 ch0 "L1_W1" rGame rfl).1⟩

end Splendor
